import Mathlib

/-!
Verification development for the dungeon level-topology core of the
`dungeon-despair-domain` repository.

The definitions below are a shallow embedding of the Python sources:
`dungeon_despair/domain/utils.py`, `dungeon_despair/domain/level.py`,
`dungeon_despair/domain/room.py`, `dungeon_despair/domain/corridor.py` and
`dungeon_despair/functions.py` (the `src/` package layout is the authoritative
copy).  Python dictionaries are modelled as association lists in insertion
order; `d[k] = v` replaces in place when the key is present and appends
otherwise, `del d[k]` removes the entry.  Python exceptions raised by the
operation methods are modelled by an explicit result type that carries the
level object at the moment the exception escapes, so that partial mutation
performed before a raise is observable, exactly as it is through the live
`Level` object in Python.
-/

set_option maxRecDepth 10000

/-- `Direction` enum (declaration order NORTH, SOUTH, EAST, WEST, which is the
iteration order of `for direction in Direction`). -/
inductive Direction where
  | north
  | south
  | east
  | west
deriving DecidableEq, Repr

/-- Iteration order of the Python `Direction` enum. -/
def Direction.pyOrder : List Direction :=
  [.north, .south, .east, .west]

/-- `ordered_directions` from `domain/utils.py` (the rotation order). -/
def orderedDirections : List Direction :=
  [.north, .east, .south, .west]

/-- `opposite_direction` from `domain/utils.py`. -/
def oppositeDirection : Direction → Direction
  | .north => .south
  | .south => .north
  | .east => .west
  | .west => .east

/-- `get_enum_by_value(Direction, value)`: parse a direction string. -/
def parseDirection : String → Option Direction
  | "north" => some .north
  | "south" => some .south
  | "east" => some .east
  | "west" => some .west
  | _ => none

/-- Integer grid coordinate `(x, y)`. -/
abbrev Coord := Int × Int

/-- `get_new_coords` from `domain/utils.py`: NORTH decreases y, SOUTH
increases y, EAST increases x, WEST decreases x, `n` grid units. -/
def getNewCoords (coords : Coord) (direction : Direction) (n : Int) : Coord :=
  match direction with
  | .south => (coords.1, coords.2 + n)
  | .north => (coords.1, coords.2 - n)
  | .east => (coords.1 + n, coords.2)
  | .west => (coords.1 - n, coords.2)

/-- Index of a direction in `ordered_directions` (`list.index`). -/
def dirIndex : Direction → Int
  | .north => 0
  | .east => 1
  | .south => 2
  | .west => 3

/-- `get_rotation` from `domain/utils.py`: signed index difference in the
order [NORTH, EAST, SOUTH, WEST]. -/
def getRotation (fromDirection toDirection : Direction) : Int :=
  dirIndex toDirection - dirIndex fromDirection

/-- `get_rotated_direction` from `domain/utils.py`; Python `%` on a positive
modulus is `Int.emod`, whose result is non-negative. -/
def getRotatedDirection (direction : Direction) (rotateBy : Int) : Direction :=
  (orderedDirections.getD ((dirIndex direction + rotateBy).emod 4).toNat .north)

/-- `make_corridor_name` from `domain/utils.py`. -/
def makeCorridorName (roomFromName roomToName : String) : String :=
  roomFromName ++ "-" ++ roomToName

/-- One render-handle slot (`sprite` attribute, `None` or a path). -/
abbrev Sprite := Option String

/-- Entity as far as the topology core observes it: name, description and
render handle (`domain/entities/entity.py`). -/
structure Entity where
  name : String
  description : String
  sprite : Sprite
deriving DecidableEq, Repr

/-- `Encounter` (`domain/encounter.py`): the `entities` dict has the three
fixed keys "enemy", "trap", "treasure". -/
structure Encounter where
  enemies : List Entity
  traps : List Entity
  treasures : List Entity
deriving DecidableEq, Repr

/-- A fresh `Encounter()`. -/
def Encounter.empty : Encounter := ⟨[], [], []⟩

/-- Reset the sprite of every entity of an encounter (`entity.sprite = None`
loop of `update_room`). -/
def Encounter.resetSprites (e : Encounter) : Encounter :=
  ⟨e.enemies.map (fun x => { x with sprite := none }),
   e.traps.map (fun x => { x with sprite := none }),
   e.treasures.map (fun x => { x with sprite := none })⟩

/-- `Room` (`domain/room.py`). -/
structure Room where
  name : String
  description : String
  coords : Coord
  encounter : Encounter
  sprite : Sprite
deriving DecidableEq, Repr

/-- `Corridor` (`domain/corridor.py`). -/
structure Corridor where
  roomFrom : String
  roomTo : String
  direction : Direction
  name : String
  length : Int
  encounters : List Encounter
  coords : List Coord
  sprites : List Sprite
deriving DecidableEq, Repr

/-- Per-room direction map: one entry per direction, value `""` when the
slot is free.  Iteration order of `.values()` / `.items()` is the enum
declaration order NORTH, SOUTH, EAST, WEST. -/
structure DirMap where
  north : String
  south : String
  east : String
  west : String
deriving DecidableEq, Repr

/-- `{direction: "" for direction in Direction}`. -/
def DirMap.empty : DirMap := ⟨"", "", "", ""⟩

def DirMap.get (m : DirMap) : Direction → String
  | .north => m.north
  | .south => m.south
  | .east => m.east
  | .west => m.west

def DirMap.set (m : DirMap) : Direction → String → DirMap
  | .north, v => { m with north := v }
  | .south, v => { m with south := v }
  | .east, v => { m with east := v }
  | .west, v => { m with west := v }

/-- `.values()` in iteration order. -/
def DirMap.valuesList (m : DirMap) : List String :=
  [m.north, m.south, m.east, m.west]

/-- `.items()` in iteration order. -/
def DirMap.itemsList (m : DirMap) : List (Direction × String) :=
  [(.north, m.north), (.south, m.south), (.east, m.east), (.west, m.west)]

/-- Rotation remap of a direction map used by `update_corridor`:
`new[get_rotated_direction(d, by)] = old[d]` for every direction `d`. -/
def DirMap.rotate (m : DirMap) (rotateBy : Int) : DirMap :=
  (((DirMap.empty.set (getRotatedDirection .north rotateBy) (m.get .north)).set
      (getRotatedDirection .south rotateBy) (m.get .south)).set
      (getRotatedDirection .east rotateBy) (m.get .east)).set
      (getRotatedDirection .west rotateBy) (m.get .west)

/-- Association list standing for a Python `dict`, in insertion order. -/
abbrev Dict (α : Type) := List (String × α)

/-- Dictionary membership test (`k in d.keys()`). -/
def dictContains {α : Type} (d : Dict α) (k : String) : Bool :=
  d.any (fun p => p.1 == k)

/-- Dictionary lookup (`d.get(k, None)` / `d[k]`). -/
def dictGet? {α : Type} (d : Dict α) (k : String) : Option α :=
  (d.find? (fun p => p.1 == k)).map Prod.snd

/-- `d[k] = v`: replace in place when present, append otherwise. -/
def dictSet {α : Type} : Dict α → String → α → Dict α
  | [], k, v => [(k, v)]
  | (a, b) :: t, k, v =>
      if a = k then (k, v) :: t else (a, b) :: dictSet t k v

/-- `del d[k]` (no-op when the key is absent; every `del` site in the
sources is guarded by containment). -/
def dictErase {α : Type} : Dict α → String → Dict α
  | [], _ => []
  | (a, b) :: t, k => if a = k then t else (a, b) :: dictErase t k

/-- `list(d.keys())`. -/
def dictKeys {α : Type} (d : Dict α) : List String :=
  d.map Prod.fst

/-- `list(d.values())`. -/
def dictValues {α : Type} (d : Dict α) : List α :=
  d.map Prod.snd

/-- `Level` (`domain/level.py`). -/
structure Level where
  rooms : Dict Room
  corridors : Dict Corridor
  connections : Dict DirMap
  currentRoom : String
deriving DecidableEq, Repr

/-- The empty level (pydantic defaults). -/
def Level.empty : Level := ⟨[], [], [], ""⟩

/-- `Level.get_corridors_by_room` (`domain/level.py`). -/
def Level.getCorridorsByRoom (level : Level) (roomName : String) : List Corridor :=
  (level.corridors.filter
    (fun p => p.2.roomFrom == roomName || p.2.roomTo == roomName)).map Prod.snd

/-- `check_intersection_coords` from `domain/utils.py`: first scan rooms in
dict order, then corridors. -/
def checkIntersectionCoords (coords : Coord) (level : Level) : Bool × String :=
  match level.rooms.find? (fun p => p.2.coords == coords) with
  | some p => (true, p.1)
  | none =>
      match level.corridors.find? (fun p => coords ∈ p.2.coords) with
      | some p => (true, p.1)
      | none => (false, "")

/-- `config.corridor_min_length` (`domain/configs.py`). -/
def corridorMinLength : Int := 2

/-- `config.corridor_max_length` (`domain/configs.py`). -/
def corridorMaxLength : Int := 4

/-- `level.connections[room]`, defaulting to the empty map when the key is
absent (Python would raise `KeyError`; every traversal in the sources only
looks up names that are keys in well-formed levels, and a missing key has no
neighbours to offer). -/
def connGet (conns : Dict DirMap) (room : String) : DirMap :=
  (dictGet? conns room).getD DirMap.empty

/-- `connections[room][direction] = value` at an existing key (no-op when the
key is absent; the commit paths of the sources only write at keys whose
presence was established by the preceding validation). -/
def connSetDir (conns : Dict DirMap) (room : String) (d : Direction) (v : String) :
    Dict DirMap :=
  match dictGet? conns room with
  | some m => dictSet conns room (m.set d v)
  | none => conns

/-- Iterate a step function `n` times. -/
def iterateN {σ : Type} (f : σ → σ) : Nat → σ → σ
  | 0, s => s
  | n + 1, s => iterateN f n (f s)

/-- State of the breadth-first traversal of `check_if_in_loop`
(`domain/utils.py`): the `explored_rooms` list, the current `paths` round,
and whether `return True` has been hit. -/
structure LoopState where
  explored : List String
  paths : List String
  found : Bool
deriving DecidableEq, Repr

/-- Inner direction scan of `check_if_in_loop` for one room: returns `none`
when `return True` fires, otherwise the updated `new_paths` list.  A
neighbour equal to `room_from` triggers when the scanned room is not
`room_to`; other non-empty neighbours not yet explored are appended. -/
def loopScanDirs (roomFrom roomTo room : String) (explored : List String) :
    List String → List String → Option (List String)
  | newPaths, [] => some newPaths
  | newPaths, z :: rest =>
      if z ≠ "" then
        if z = roomFrom then
          if room ≠ roomTo then none
          else loopScanDirs roomFrom roomTo room explored newPaths rest
        else
          if z ∉ explored then
            loopScanDirs roomFrom roomTo room explored (newPaths ++ [z]) rest
          else loopScanDirs roomFrom roomTo room explored newPaths rest
      else loopScanDirs roomFrom roomTo room explored newPaths rest

/-- One `for room in paths` round of `check_if_in_loop`: each room is first
appended to `explored_rooms`, then its four connection values are scanned in
enum order.  `none` models the `return True` exit. -/
def loopRound (conns : Dict DirMap) (roomFrom roomTo : String) :
    List String → List String → List String → Option (List String × List String)
  | explored, newPaths, [] => some (explored, newPaths)
  | explored, newPaths, room :: rest =>
      let explored' := explored ++ [room]
      match loopScanDirs roomFrom roomTo room explored'
          newPaths (connGet conns room).valuesList with
      | none => none
      | some np => loopRound conns roomFrom roomTo explored' np rest

/-- One iteration of the `while len(paths) > 0` loop of `check_if_in_loop`;
fixed points are the terminated states (`found` or `paths = []`). -/
def loopStep (conns : Dict DirMap) (roomFrom roomTo : String) (s : LoopState) :
    LoopState :=
  if s.found then s
  else
    match s.paths with
    | [] => s
    | _ =>
        match loopRound conns roomFrom roomTo s.explored [] s.paths with
        | none => { s with found := true }
        | some (e, np) => ⟨e, np, false⟩

/-- All room names that can ever enter the traversal: the start room plus
every connection value. -/
def loopUniverse (conns : Dict DirMap) (roomTo : String) : List String :=
  roomTo :: conns.flatMap (fun p => p.2.valuesList)

/-- `check_if_in_loop` from `domain/utils.py`.  The Python `while` loop is
run as an iterated step function; the iteration count `2 * |universe| + 3`
is provably enough to reach a terminated state (see `loopStep_reaches_fix`
below). -/
def checkIfInLoop (corridor : Corridor) (conns : Dict DirMap) : Bool :=
  let u := (loopUniverse conns corridor.roomTo).dedup.length
  (iterateN (loopStep conns corridor.roomFrom corridor.roomTo) (2 * u + 3)
      ⟨[], [corridor.roomTo], false⟩).found

/-- Append the non-empty values not yet present (the inner
`for other_room in self.connections[room].values()` loop of
`remove_hanging_rooms` in `domain/level.py`). -/
def addNewRooms (seen : List String) : List String → List String
  | [] => seen
  | z :: rest =>
      if z ≠ "" ∧ z ∉ seen then addNewRooms (seen ++ [z]) rest
      else addNewRooms seen rest

/-- One worklist step of the `remove_hanging_rooms` reachability sweep: the
Python `for room in connected_rooms` loop iterates over the list while it
grows, which is exactly an index-based worklist; the outer `while has_more`
pass finds nothing new once the index has caught up. -/
def closureStep (conns : Dict DirMap) (s : List String × Nat) : List String × Nat :=
  if h : s.2 < s.1.length then
    let room := s.1.get ⟨s.2, h⟩
    if dictContains conns room then
      (addNewRooms s.1 (connGet conns room).valuesList, s.2 + 1)
    else (s.1, s.2 + 1)
  else s

/-- The `connected_rooms` list computed by `remove_hanging_rooms` from the
anchor `refRoom`.  `|universe| + 2` worklist steps are provably enough (see
`closureStep_reaches_fix` below). -/
def connectedRooms (conns : Dict DirMap) (refRoom : String) : List String :=
  let cap := (refRoom :: conns.flatMap (fun p => p.2.valuesList)).dedup.length
  (iterateN (closureStep conns) (cap + 2) ([refRoom], 0)).1

/-- `Level.remove_hanging_rooms` (`domain/level.py`).  Python takes the set
difference `set(all_rooms) - set(connected_rooms)` whose iteration order is
unspecified; deletions commute, so the rooms-dict order is used here. -/
def Level.removeHangingRooms (level : Level) (refRoom : Option String) : Level :=
  let anchor := match refRoom with
    | some r => r
    | none => level.currentRoom
  let connected := connectedRooms level.connections anchor
  let hanging := (dictKeys level.rooms).filter (fun r => r ∉ connected)
  hanging.foldl
    (fun lvl room =>
      let lvl1 : Level :=
        { lvl with
            rooms := dictErase lvl.rooms room,
            connections := dictErase lvl.connections room }
      { lvl1 with
          corridors :=
            (lvl1.getCorridorsByRoom room).foldl
              (fun d c => dictErase d c.name) lvl1.corridors })
    level

/-- `get_encounter` from `domain/utils.py`.  A room name wins over a
corridor name; the cell index is validated only in the corridor branch, and
an index passing the bound check but exceeding the encounter list is the
Python `IndexError`. -/
def getEncounter (level : Level) (roomName : String) (cellIndex : Int) :
    Except String Encounter :=
  match dictGet? level.rooms roomName with
  | some room => .ok room.encounter
  | none =>
      match dictGet? level.corridors roomName with
      | some corridor =>
          if 0 < cellIndex ∧ cellIndex ≤ corridor.length then
            match corridor.encounters.get? (cellIndex - 1).toNat with
            | some e => .ok e
            | none => .error "list index out of range"
          else
            .error (roomName ++ " is a corridor, but cell_index is invalid, it should be a value between 1 and the corridor length (inclusive).")
      | none => .error (roomName ++ " is not in the level.")

/-- Outcome of calling one of the mutating operations of
`DungeonCrawlerFunctions`: `ok` is a normal return, `exn` is a raised
exception (`AssertionError`, `KeyError`, `IndexError`), carrying the level
object as it stands when the exception escapes. -/
inductive PyResult where
  | ok (level : Level) (msg : String)
  | exn (level : Level) (msg : String)
deriving DecidableEq, Repr

/-- The level carried by a result. -/
def PyResult.level : PyResult → Level
  | .ok l _ => l
  | .exn l _ => l

/-- `true` on a normal return. -/
def PyResult.isOk : PyResult → Bool
  | .ok _ _ => true
  | .exn _ _ => false

/-- `add_room` from `functions.py`.  All validation precedes the first
mutation; the degree guard divides the corridor count of the *new* room name
by two, exactly as the source does. -/
def addRoom (level : Level) (name description roomFrom direction : String) :
    PyResult :=
  if name = "" then .exn level "Room name should be provided."
  else if description = "" then .exn level "Room description should be provided."
  else if dictContains level.rooms name then
    .exn level ("Could not add " ++ name ++ " to the level: " ++ name ++ " already exists.")
  else if level.currentRoom = "" ∧ roomFrom ≠ "" then
    .exn level ("Could not add " ++ name ++ " to the level: room_from must not be set if there is no current room.")
  else if level.currentRoom ≠ "" ∧ roomFrom = "" then
    .exn level ("Could not add " ++ name ++ " to the level: room_from must be set if there exists a current room.")
  else if level.currentRoom ≠ "" ∧ direction = "" then
    .exn level ("Could not add " ++ name ++ " to the level: direction must be set if there exists a current room.")
  else if roomFrom ≠ "" then
    if dictContains level.corridors roomFrom then
      .exn level ("Could not add " ++ name ++ " to the level: Cannot add a room from a corridor.")
    else
      match dictGet? level.rooms roomFrom with
      | none => .exn level (roomFrom ++ " is not a valid room name.")
      | some fromRoom =>
          match parseDirection direction with
          | none =>
              .exn level ("Could not add " ++ name ++ " to the level: " ++ direction ++ " is not a valid direction.")
          | some dirEnum =>
              match dictGet? level.connections roomFrom with
              | none => .exn level ("KeyError: " ++ roomFrom)
              | some fromConn =>
                  if fromConn.get dirEnum ≠ "" then
                    .exn level ("Could not add " ++ name ++ " to the level: " ++ direction ++ " of " ++ roomFrom ++ " there already exists a room (" ++ fromConn.get dirEnum ++ ").")
                  else if ¬ ((level.getCorridorsByRoom name).length / 2 < 4) then
                    .exn level ("Could not add " ++ name ++ " to the level: " ++ roomFrom ++ " has too many connections.")
                  else
                    let fromCoords := fromRoom.coords
                    let newCoords :=
                      getNewCoords fromCoords dirEnum (corridorMinLength + 1)
                    if (checkIntersectionCoords newCoords level).1 then
                      .exn level ("Could not add " ++ name ++ " to the level: " ++ name ++ " would clash in " ++ (checkIntersectionCoords newCoords level).2 ++ ".")
                    else
                      let corridorCoords :=
                        (List.range corridorMinLength.toNat).map
                          (fun x => getNewCoords fromCoords dirEnum ((x : Int) + 1))
                      match corridorCoords.find?
                          (fun c => (checkIntersectionCoords c level).1) with
                      | some c =>
                          .exn level ("Could not add " ++ name ++ " to the level: corridor between " ++ roomFrom ++ " and " ++ name ++ " would clash in " ++ (checkIntersectionCoords c level).2 ++ ".")
                      | none =>
                          let newRoom : Room :=
                            ⟨name, description, newCoords, Encounter.empty, none⟩
                          let corridor : Corridor :=
                            ⟨roomFrom, name, dirEnum, roomFrom ++ "-" ++ name,
                              corridorMinLength,
                              List.replicate corridorMinLength.toNat Encounter.empty,
                              corridorCoords, []⟩
                          let conns1 := dictSet level.connections name DirMap.empty
                          let conns2 := connSetDir conns1 roomFrom dirEnum name
                          let conns3 :=
                            connSetDir conns2 name (oppositeDirection dirEnum) roomFrom
                          .ok { rooms := dictSet level.rooms name newRoom,
                                corridors := dictSet level.corridors corridor.name corridor,
                                connections := conns3,
                                currentRoom := name }
                            ("Added " ++ name ++ " to the level.")
  else
    .ok { level with
            rooms := dictSet level.rooms name ⟨name, description, (0, 0), Encounter.empty, none⟩,
            connections := dictSet level.connections name DirMap.empty,
            currentRoom := name }
      ("Added " ++ name ++ " to the level.")

/-- `remove_room` from `functions.py`.  For each corridor touching the
removed room, the reciprocal connection entry is cleared only on
`corridor.room_to` (and only when that room still exists): when the removed
room is the `room_to` endpoint, the `room_from` neighbour keeps its stale
entry — this is taken verbatim from the source. -/
def removeRoom (level : Level) (name : String) : PyResult :=
  if ¬ dictContains level.rooms name then
    .exn level ("Could not remove " ++ name ++ ": " ++ name ++ " is not in the level.")
  else if name = "" then .exn level "Room name should be provided."
  else
    let level1 : Level :=
      { level with
          rooms := dictErase level.rooms name,
          connections := dictErase level.connections name }
    let level2 :=
      (level1.getCorridorsByRoom name).foldl
        (fun lvl corridor =>
          let lvl1 : Level :=
            { lvl with corridors := dictErase lvl.corridors corridor.name }
          if dictContains lvl1.rooms corridor.roomTo then
            match dictGet? lvl1.connections corridor.roomTo with
            | some m =>
                match Direction.pyOrder.find? (fun d => m.get d == name) with
                | some d =>
                    { lvl1 with
                        connections :=
                          dictSet lvl1.connections corridor.roomTo (m.set d "") }
                | none => lvl1
            | none => lvl1
          else lvl1)
        level1
    let level3 : Level :=
      { level2 with
          currentRoom :=
            match level2.rooms with
            | [] => ""
            | (k, _) :: _ => k }
    .ok (level3.removeHangingRooms none)
      (name ++ " has been removed from the dungeon.")

/-- The reciprocal-entry loop at the end of `update_room`
(`for direction, other_room_name in level.connections[name].items(): ...`):
a neighbour name that is not a connections key is the Python `KeyError`,
escaping with the partially rewritten table. -/
def setReciprocal (name : String) (conns : Dict DirMap) :
    List (Direction × String) → Except (Dict DirMap × String) (Dict DirMap)
  | [] => .ok conns
  | (d, other) :: rest =>
      if other = "" then setReciprocal name conns rest
      else
        match dictGet? conns other with
        | none => .error (conns, "KeyError: " ++ other)
        | some m =>
            setReciprocal name
              (dictSet conns other (m.set (oppositeDirection d) name)) rest

/-- The body of the `for corridor in level.get_corridors_by_room(...)` loop
of `update_room`: the endpoint equal to the old room name is renamed, the
corridor is deleted and re-inserted under its rewritten name, and a changed
description clears its sprite list. -/
def updateCorrStep (refName name : String) (descChanged : Bool)
    (d : Dict Corridor) (c : Corridor) : Dict Corridor :=
  let fromHit := c.roomFrom = refName
  let c1 : Corridor :=
    if fromHit then
      { c with
          roomFrom := name,
          name := makeCorridorName name c.roomTo,
          sprites := if descChanged then [] else c.sprites }
    else c
  let d1 := if fromHit then dictSet (dictErase d c.name) c1.name c1 else d
  if c1.roomTo = refName then
    let c2 : Corridor :=
      { c1 with
          roomTo := name,
          name := makeCorridorName c1.roomFrom name,
          sprites := if descChanged then [] else c1.sprites }
    dictSet (dictErase d1 c1.name) c2.name c2
  else d1

/-- The rewritten corridor produced by `updateCorrStep` for a corridor
incident to `refName` (corridors never join a room to itself, so at most
one endpoint is renamed). -/
def renameIncident (refName name : String) (descChanged : Bool)
    (c : Corridor) : Corridor :=
  if c.roomFrom = refName then
    { c with
        roomFrom := name,
        name := makeCorridorName name c.roomTo,
        sprites := if descChanged then [] else c.sprites }
  else if c.roomTo = refName then
    { c with
        roomTo := name,
        name := makeCorridorName c.roomFrom name,
        sprites := if descChanged then [] else c.sprites }
  else c

/-- `update_room` from `functions.py`.  The room is deleted and re-inserted
under the (possibly new) name; a changed description clears the room sprite,
every entity sprite in its encounter and the sprite list of every incident
corridor; incident corridors are re-keyed under their rewritten names; the
connection-table key is moved and the reciprocal entries of the neighbours
listed in the room's own map are rewritten. -/
def updateRoom (level : Level) (refName name description : String) : PyResult :=
  if ¬ dictContains level.rooms refName then
    .exn level ("Could not update " ++ refName ++ ": " ++ refName ++ " is not in the level.")
  else if refName = "" then
    .exn level "Parameter room_reference_name should be provided."
  else if name = "" then .exn level "Room name should be provided."
  else if description = "" then .exn level "Room description should be provided."
  else if name ≠ refName ∧ dictContains level.rooms name then
    .exn level ("Could not update " ++ refName ++ ": " ++ name ++ " already exists in the level.")
  else
    match dictGet? level.rooms refName with
    | none => .exn level ("KeyError: " ++ refName)
    | some room0 =>
        let descChanged : Bool := room0.description != description
        let room1 : Room :=
          if descChanged then
            { room0 with
                name := name, sprite := none,
                encounter := room0.encounter.resetSprites }
          else { room0 with name := name }
        let rooms1 := dictErase level.rooms refName
        let corridors1 :=
          (level.getCorridorsByRoom refName).foldl
            (updateCorrStep refName name descChanged) level.corridors
        let room2 : Room := { room1 with description := description }
        let rooms2 := dictSet rooms1 name room2
        let level2 : Level :=
          { level with rooms := rooms2, corridors := corridors1 }
        match dictGet? level2.connections refName with
        | none => .exn level2 ("KeyError: " ++ refName)
        | some roomConnections =>
            let conns1 :=
              dictSet (dictErase level2.connections refName) name roomConnections
            match setReciprocal name conns1 roomConnections.itemsList with
            | .error (connsPartial, msg) =>
                .exn { level2 with connections := connsPartial } msg
            | .ok conns2 =>
                .ok { level2 with
                        connections := conns2,
                        currentRoom :=
                          if level.currentRoom = refName then name
                          else level.currentRoom }
                  ("Updated " ++ refName ++ ".")

/-- `corridor = level.corridors.get(make(a,b), level.corridors.get(make(b,a), None))`. -/
def findCorridorPair (level : Level) (a b : String) : Option Corridor :=
  match dictGet? level.corridors (makeCorridorName a b) with
  | some c => some c
  | none => dictGet? level.corridors (makeCorridorName b a)

/-- The coordinate list of a corridor laid from `fromCoords` along
`direction`: `get_new_coords(..., n=x) for x in range(1, length + 1)`. -/
def corridorCoordsFrom (fromCoords : Coord) (direction : Direction) (length : Int) :
    List Coord :=
  (List.range length.toNat).map
    (fun x => getNewCoords fromCoords direction ((x : Int) + 1))

/-- `add_corridor` from `functions.py`, including the `len(...) // 2 < 4`
degree guards taken verbatim from the source (they compare the *halved*
corridor count with four). -/
def addCorridor (level : Level) (roomFromName roomToName : String)
    (corridorLength : Int) (direction : String) : PyResult :=
  if roomFromName = "" then .exn level "room_from_name cannot be empty."
  else if roomToName = "" then .exn level "room_to_name cannot be empty."
  else if roomFromName = roomToName then
    .exn level (roomFromName ++ " cannot be the same as " ++ roomToName ++ ".")
  else if ¬ dictContains level.rooms roomFromName then
    .exn level ("Room " ++ roomFromName ++ " is not in the level.")
  else if ¬ dictContains level.rooms roomToName then
    .exn level ("Room " ++ roomToName ++ " is not in the level.")
  else if (findCorridorPair level roomFromName roomToName).isSome then
    .exn level ("Could not add corridor: a corridor between " ++ roomFromName ++ " and " ++ roomToName ++ " already exists.")
  else if ¬ (corridorMinLength ≤ corridorLength ∧ corridorLength ≤ corridorMaxLength) then
    .exn level "Could not add corridor: corridor_length out of bounds."
  else
    match parseDirection direction with
    | none =>
        .exn level ("Could not add a corridor: " ++ direction ++ " is not a valid direction.")
    | some dirEnum =>
        match dictGet? level.connections roomFromName with
        | none => .exn level ("KeyError: " ++ roomFromName)
        | some fromConn =>
            if fromConn.get dirEnum ≠ "" then
              .exn level ("Could not add corridor: " ++ direction ++ " of " ++ roomFromName ++ " already has a corridor to " ++ fromConn.get dirEnum ++ ".")
            else if ¬ ((level.getCorridorsByRoom roomFromName).length / 2 < 4) then
              .exn level ("Could not add corridor: " ++ roomFromName ++ " has already 4 connections.")
            else if ¬ ((level.getCorridorsByRoom roomToName).length / 2 < 4) then
              .exn level ("Could not add corridor: " ++ roomToName ++ " has already 4 connections.")
            else
              match dictGet? level.rooms roomFromName, dictGet? level.rooms roomToName with
              | some fromRoom, some toRoom =>
                  if toRoom.coords ≠ getNewCoords fromRoom.coords dirEnum (corridorLength + 1) then
                    .exn level ("Could not add corridor: cannot reach " ++ roomToName ++ " from " ++ roomFromName ++ " with a corridor of that length along " ++ direction ++ ".")
                  else
                    let corridorCoords :=
                      corridorCoordsFrom fromRoom.coords dirEnum corridorLength
                    match corridorCoords.find?
                        (fun c => (checkIntersectionCoords c level).1) with
                    | some c =>
                        .exn level ("Could not add corridor between " ++ roomFromName ++ " and " ++ roomToName ++ " to the level: it would clash in " ++ (checkIntersectionCoords c level).2 ++ ".")
                    | none =>
                        let conns1 :=
                          connSetDir level.connections roomFromName dirEnum roomToName
                        let conns2 :=
                          connSetDir conns1 roomToName (oppositeDirection dirEnum) roomFromName
                        let corridor : Corridor :=
                          ⟨roomFromName, roomToName, dirEnum,
                            makeCorridorName roomFromName roomToName, corridorLength,
                            List.replicate corridorLength.toNat Encounter.empty,
                            corridorCoords, []⟩
                        .ok { level with
                                connections := conns2,
                                corridors := dictSet level.corridors corridor.name corridor,
                                currentRoom := makeCorridorName roomFromName roomToName }
                          ("Added corridor between " ++ roomFromName ++ " and " ++ roomToName ++ ".")
              | _, _ => .exn level "KeyError"

/-- Clearing step of `remove_corridor`: the first direction whose entry of
`a` equals `b` is emptied (the loop `break`s after one hit). -/
def clearConnTo (conns : Dict DirMap) (a b : String) : Dict DirMap :=
  match dictGet? conns a with
  | some m =>
      match Direction.pyOrder.find? (fun d => m.get d == b) with
      | some d => dictSet conns a (m.set d "")
      | none => conns
  | none => conns

/-- `remove_corridor` from `functions.py`. -/
def removeCorridor (level : Level) (roomFromName roomToName : String) : PyResult :=
  if roomFromName = "" then .exn level "room_from_name cannot be empty."
  else if roomToName = "" then .exn level "room_to_name cannot be empty."
  else
    match findCorridorPair level roomFromName roomToName with
    | none =>
        .exn level ("Corridor between " ++ roomFromName ++ " and " ++ roomToName ++ " does not exist.")
    | some corridor =>
        let level1 : Level :=
          { level with corridors := dictErase level.corridors corridor.name }
        let conns1 := clearConnTo level1.connections roomFromName roomToName
        let conns2 := clearConnTo conns1 roomToName roomFromName
        let level2 : Level := { level1 with connections := conns2 }
        let level3 : Level :=
          if level2.currentRoom = corridor.name then
            { level2 with currentRoom := corridor.roomFrom }
          else level2
        .ok (level3.removeHangingRooms none)
          ("Removed corridor between " ++ roomFromName ++ " and " ++ roomToName ++ ".")

/-- One `for area in to_expand` pass of `Level.get_level_subset`
(`domain/level.py`).  The Python `for` iterates by index over a list that is
extended and shortened (`to_expand.remove(area)`) inside the body, so after a
removal the next index skips one element; the surrounding `while` restarts
the pass on the leftovers.  The two `not in` dedup guards of the source
compare a name string against lists of `Room`/`Corridor` objects and are
therefore always true; they are embedded as such.  Keys looked up here are
the names the traversal itself collected. -/
def subsetForPass (level : Level) (opposite : Bool) :
    Nat → Nat → List String → List String → List String →
    List String × List String × List String
  | 0, _, rooms, corridors, toExpand => (rooms, corridors, toExpand)
  | fuel + 1, i, rooms, corridors, toExpand =>
      if h : i < toExpand.length then
        let area := toExpand.get ⟨i, h⟩
        if dictContains level.rooms area then
          let cs := level.getCorridorsByRoom area
          let newNames :=
            if opposite then (cs.filter (fun c => c.roomFrom ≠ area)).map Corridor.name
            else (cs.filter (fun c => c.roomTo ≠ area)).map Corridor.name
          subsetForPass level opposite fuel (i + 1) (rooms ++ [area]) corridors
            ((toExpand ++ newNames).erase area)
        else
          match dictGet? level.corridors area with
          | some c =>
              let nxt := if opposite then c.roomFrom else c.roomTo
              subsetForPass level opposite fuel (i + 1) rooms (corridors ++ [area])
                ((toExpand ++ [nxt]).erase area)
          | none =>
              subsetForPass level opposite fuel (i + 1) rooms corridors
                (toExpand.erase area)
      else (rooms, corridors, toExpand)

/-- Generous step budget for the subset traversal (it is only ever evaluated
on concrete levels, where the budget is far more than enough). -/
def subsetFuel (level : Level) : Nat :=
  8 * (level.rooms.length + level.corridors.length + 2) *
    (level.corridors.length + 2)

/-- The `while len(to_expand) > 0` loop of `Level.get_level_subset`. -/
def subsetWhile (level : Level) (opposite : Bool) :
    Nat → List String → List String → List String → List String × List String
  | 0, rooms, corridors, _ => (rooms, corridors)
  | fuel + 1, rooms, corridors, toExpand =>
      if toExpand.isEmpty then (rooms, corridors)
      else
        match subsetForPass level opposite (subsetFuel level) 0
            rooms corridors toExpand with
        | (r, c, t) => subsetWhile level opposite fuel r c t

/-- `Level.get_level_subset` (`domain/level.py`), returning the collected
room names and corridor names (the Python version returns the corresponding
objects, which alias the level's dictionaries). -/
def Level.getLevelSubset (level : Level) (corridor : Corridor) (opposite : Bool) :
    List String × List String :=
  let start := if opposite then corridor.roomFrom else corridor.roomTo
  subsetWhile level opposite (subsetFuel level) [] [] [start]

/-- Python `list.insert(-2, None)`: insert before index `len - 2`, clamped
at zero. -/
def pyInsertNeg2 (l : List Sprite) : List Sprite :=
  l.take (l.length - 2) ++ none :: l.drop (l.length - 2)

/-- The encounter/sprite reconciliation of `update_corridor` when the new
length differs from the encounter count: truncation keeps the first
`length` encounters and re-appends the last sprite (an empty sprite list is
the Python `IndexError` on `sprites[-1]`); extension appends fresh
encounters and inserts `None` sprites at position `-2` one per new cell. -/
def reconcileEncSprites (encounters : List Encounter) (sprites : List Sprite)
    (length : Int) : Except String (List Encounter × List Sprite) :=
  if (encounters.length : Int) ≠ length then
    if (encounters.length : Int) > length then
      match sprites.getLast? with
      | none => .error "list index out of range"
      | some last =>
          .ok (encounters.take length.toNat,
               sprites.take (length.toNat + 1) ++ [last])
    else
      .ok (encounters ++
             List.replicate (length.toNat - encounters.length) Encounter.empty,
           iterateN pyInsertNeg2 (length.toNat - encounters.length) sprites)
  else .ok (encounters, sprites)

/-- `connections[room] = rotated copy of connections[room]` (rotation remap
of one room's direction map in `update_corridor`). -/
def connRotateAt (conns : Dict DirMap) (room : String) (rotation : Int) :
    Dict DirMap :=
  match dictGet? conns room with
  | some m => dictSet conns room (m.rotate rotation)
  | none => conns

/-- The coordinate-update block of `update_corridor`
(`updating_rooms = [new_corridor.room_to]; while ...`): the loop body never
extends `updating_rooms`, so exactly the one room is processed.  Its
coordinates are recomputed from the first corridor that enters it, then the
coordinates of its outgoing corridors are recomputed; the `ValueError` of
`.index` is caught and ignored by the source, while a `KeyError` on a room
lookup escapes. -/
def updateCoordsStep (lvl : Level) (roomName : String) : Except String Level :=
  match dictGet? lvl.rooms roomName with
  | none => .error ("KeyError: " ++ roomName)
  | some room =>
      let ccs := lvl.getCorridorsByRoom roomName
      if ccs.isEmpty then .ok lvl
      else
        match ccs.find? (fun c => c.roomTo == roomName) with
        | none => .ok lvl
        | some cc =>
            match dictGet? lvl.rooms cc.roomFrom with
            | none => .error ("KeyError: " ++ cc.roomFrom)
            | some rf =>
                let newCoords := getNewCoords rf.coords cc.direction (cc.length + 1)
                let lvl1 : Level :=
                  { lvl with
                      rooms := dictSet lvl.rooms roomName { room with coords := newCoords } }
                .ok { lvl1 with
                        corridors :=
                          ccs.foldl
                            (fun d oc =>
                              if oc.roomFrom = room.name then
                                dictSet d oc.name
                                  { oc with
                                      coords :=
                                        corridorCoordsFrom newCoords oc.direction oc.length }
                              else d)
                            lvl1.corridors }

/-- The final intersection scan of `update_corridor`: for each room, first
the room-against-room comparison, then room-against-corridor; the first
offending pair produces the raised message. -/
def firstCollision (lvl : Level) (refFrom refTo : String) : Option String :=
  lvl.rooms.findSome?
    (fun p =>
      match lvl.rooms.find?
          (fun q => p.2.name != q.2.name && p.2.coords == q.2.coords) with
      | some q =>
          some ("Could not update corridor between " ++ refFrom ++ " and " ++ refTo ++ ": updated corridor would results in " ++ p.2.name ++ " intersect with " ++ q.2.name)
      | none =>
          match lvl.corridors.find? (fun q => q.2.coords.contains p.2.coords) with
          | some q =>
              some ("Could not update corridor between " ++ refFrom ++ " and " ++ refTo ++ ": updated corridor would results in " ++ p.2.name ++ " intersect with " ++ q.2.name)
          | none => none)

/-- Compute-then-commit phase of `update_corridor`, entered after all input
validation: the reference corridor is removed from a copy, the new corridor
built, the changing side rotated when the direction changes, hanging rooms
pruned from the copy, the moved room's coordinates recomputed and the copy
validated; only then is the copy swapped into the level.  Any raise in this
phase escapes with the live level untouched. -/
def updateCorridorBody (level : Level) (refFrom refTo fromName toName : String)
    (corridorLength : Int) (dirEnum : Direction) (refCorridor : Corridor) :
    PyResult :=
  let copy1 : Level := { level with corridors := dictErase level.corridors refCorridor.name }
  let copy2 : Level :=
    { copy1 with
        connections :=
          connSetDir
            (connSetDir copy1.connections refFrom refCorridor.direction "")
            refTo (oppositeDirection refCorridor.direction) "" }
  match dictGet? copy2.rooms fromName with
  | none => .exn level ("KeyError: " ++ fromName)
  | some fromRoom =>
      match reconcileEncSprites refCorridor.encounters refCorridor.sprites corridorLength with
      | .error msg => .exn level msg
      | .ok (encounters1, sprites1) =>
          let sprites2 := if refFrom ≠ fromName ∨ refTo ≠ toName then [] else sprites1
          let newCorridor : Corridor :=
            ⟨fromName, toName, dirEnum, makeCorridorName fromName toName,
              corridorLength, encounters1,
              corridorCoordsFrom fromRoom.coords dirEnum corridorLength, sprites2⟩
          let copy3 : Level :=
            if refCorridor.direction ≠ dirEnum then
              let rotation := getRotation refCorridor.direction dirEnum
              let connectedNames := (copy2.getLevelSubset refCorridor false).2
              let folded :=
                connectedNames.foldl
                  (fun (st : Dict Corridor × Dict DirMap × List String) cname =>
                    match dictGet? st.1 cname with
                    | none => st
                    | some c =>
                        let c1 : Corridor :=
                          { c with direction := getRotatedDirection c.direction rotation }
                        let cors1 := dictSet st.1 cname c1
                        if c1.roomTo ∉ st.2.2 then
                          (cors1, connRotateAt st.2.1 c1.roomTo rotation,
                           st.2.2 ++ [c1.roomTo])
                        else (cors1, st.2.1, st.2.2))
                  (copy2.corridors, copy2.connections, [])
              { copy2 with
                  corridors := folded.1,
                  connections := connRotateAt folded.2.1 refCorridor.roomTo rotation }
            else copy2
          let copy4 : Level :=
            { copy3 with
                corridors := dictSet copy3.corridors newCorridor.name newCorridor,
                connections :=
                  connSetDir
                    (connSetDir copy3.connections fromName dirEnum toName)
                    toName (oppositeDirection dirEnum) fromName }
          let copy5 := copy4.removeHangingRooms (some fromName)
          match updateCoordsStep copy5 newCorridor.roomTo with
          | .error msg => .exn level msg
          | .ok copy6 =>
              match firstCollision copy6 refFrom refTo with
              | some msg => .exn level msg
              | none =>
                  .ok { rooms := copy6.rooms,
                        corridors := copy6.corridors,
                        connections := copy6.connections,
                        currentRoom := newCorridor.name }
                    ("Updated corridor between " ++ fromName ++ " and " ++ toName ++ ".")

/-- `update_corridor` from `functions.py`: input validation (names, length
bounds, corridor existence, direction, loop membership, slot availability of
renamed endpoints) followed by the compute-then-commit body. -/
def updateCorridor (level : Level) (refFrom refTo fromName toName : String)
    (corridorLength : Int) (direction : String) : PyResult :=
  if refFrom = "" then .exn level "room_from_reference_name cannot be empty."
  else if refTo = "" then .exn level "room_to_reference_name cannot be empty."
  else if fromName = "" then .exn level "room_from_name cannot be empty."
  else if toName = "" then .exn level "room_to_name cannot be empty."
  else if ¬ (corridorMinLength ≤ corridorLength ∧ corridorLength ≤ corridorMaxLength) then
    .exn level "Could not add corridor: corridor_length out of bounds."
  else
    match findCorridorPair level refFrom refTo with
    | none =>
        .exn level ("Corridor between " ++ refFrom ++ " and " ++ refTo ++ " does not exist.")
    | some refCorridor =>
        match parseDirection direction with
        | none =>
            .exn level ("Could not update corridor between " ++ refFrom ++ " and " ++ refTo ++ ": " ++ direction ++ " is not a valid direction.")
        | some dirEnum =>
            if checkIfInLoop refCorridor level.connections then
              .exn level "Could not update corridor: corridors in a closed loop cannot be altered."
            else
              match
                (if refFrom ≠ fromName then
                  match dictGet? level.connections fromName with
                  | none => some (PyResult.exn level ("KeyError: " ++ fromName))
                  | some m =>
                      if m.get dirEnum ≠ "" then
                        some (PyResult.exn level ("Could not update corridor between " ++ refFrom ++ " and " ++ refTo ++ ": " ++ fromName ++ " already has a corridor on that direction."))
                      else none
                else none) with
              | some r => r
              | none =>
                  match
                    (if refTo ≠ toName then
                      match dictGet? level.connections toName with
                      | none => some (PyResult.exn level ("KeyError: " ++ toName))
                      | some m =>
                          if m.get (oppositeDirection dirEnum) ≠ "" then
                            some (PyResult.exn level ("Could not update corridor between " ++ refFrom ++ " and " ++ refTo ++ ": " ++ toName ++ " already has a corridor on that direction."))
                          else none
                    else none) with
                  | some r => r
                  | none =>
                      updateCorridorBody level refFrom refTo fromName toName
                        corridorLength dirEnum refCorridor

/-- An edge of the connection graph: `y` is a non-empty connection value of
room `x` (in some direction). -/
def hasEdge (conns : Dict DirMap) (x y : String) : Prop :=
  y ≠ "" ∧ y ∈ (connGet conns x).valuesList

/-- Reachability along connection values, never stepping onto `avoid`:
the paths followed by the breadth-first traversal of `check_if_in_loop`
(which never walks through `room_from`) and, with a vacuous `avoid`, by the
reachability sweep of `remove_hanging_rooms`. -/
inductive ReachAvoid (conns : Dict DirMap) (avoid : String) : String → String → Prop
  | refl (x : String) : ReachAvoid conns avoid x x
  | step {x y z : String} :
      ReachAvoid conns avoid x y → hasEdge conns y z → z ≠ avoid →
      ReachAvoid conns avoid x z

/-- Plain reachability over the connection graph (the `avoid` name is `""`,
which no edge can hit anyway). -/
def Reaches (conns : Dict DirMap) (x y : String) : Prop :=
  ReachAvoid conns "" x y

/-- Modelled from the spec (§4.4): the corridor lies on a cycle of the
connection graph — the breadth-first traversal started from
`corridor.room_to` reaches `corridor.room_from` by some path other than
traversing the corridor itself, i.e. some room other than `room_to`,
reachable from `room_to` without stepping onto `room_from`, has a
connection edge into `room_from`. -/
def specOnCycle (corridor : Corridor) (conns : Dict DirMap) : Prop :=
  ∃ r, r ≠ corridor.roomTo ∧
    ReachAvoid conns corridor.roomFrom corridor.roomTo r ∧
    hasEdge conns r corridor.roomFrom

/-- A room name hangs for the pruner: it is a rooms key not reachable from
the anchor. -/
def hangsFor (level : Level) (anchor : String) (r : String) : Prop :=
  r ∈ dictKeys level.rooms ∧ ¬ Reaches level.connections anchor r

/-- Well-formedness facts used by the general theorems: room, corridor and
connection keys are duplicate-free and every corridor is stored under its
`name` attribute. -/
def Level.WF (level : Level) : Prop :=
  (dictKeys level.rooms).Nodup ∧ (dictKeys level.corridors).Nodup ∧
    (dictKeys level.connections).Nodup ∧
    ∀ p ∈ level.corridors, p.1 = p.2.name

/- Concrete scenario levels used by the claims. -/

/-- Scenario of claim C6: an empty level, then room "A". -/
def lvlA : PyResult := addRoom Level.empty "A" "desc" "" ""

/-- Scenario of claim C6: room "B" east of "A". -/
def lvlAB : PyResult := addRoom lvlA.level "B" "desc" "A" "east"

/-- Scenario of claim C6: corridor "A-B" turned south. -/
def lvlABSouth : PyResult := updateCorridor lvlAB.level "A" "B" "A" "B" 2 "south"

/-- Claim C1 sequence, step 3: corridor "A-B" lengthened to 4. -/
def seqC1a : PyResult := updateCorridor lvlAB.level "A" "B" "A" "B" 4 "east"

/-- Claim C1 sequence, step 4: room "C" north of "A". -/
def seqC1b : PyResult := addRoom seqC1a.level "C" "desc" "A" "north"

/-- Claim C1 sequence, step 5: room "E" east of "C". -/
def seqC1c : PyResult := addRoom seqC1b.level "E" "desc" "C" "east"

/-- Claim C1 sequence, step 6: room "F" north of "E". -/
def seqC1d : PyResult := addRoom seqC1c.level "F" "desc" "E" "north"

/-- Claim C1 sequence, step 7: corridor "E-F" turned south and lengthened;
the committed result has corridors "A-B" and "E-F" crossing at (3, 0). -/
def seqC1e : PyResult := updateCorridor seqC1d.level "E" "F" "E" "F" 4 "south"

/-- Claims C2/C3 scenario: remove room "B" from the two-room level; the
committed result keeps the stale entry `connections["A"][east] = "B"`. -/
def lvlStale : PyResult := removeRoom lvlAB.level "B"

/-- Claim C2 scenario: renaming "A" on the stale level raises `KeyError`
after the room has already been renamed. -/
def staleRename : PyResult := updateRoom lvlStale.level "A" "A2" "desc"

/-- Four-room square (claims C4/C5): rooms A, B, C, D. -/
def sq1 : PyResult := addRoom Level.empty "A" "desc" "" ""

def sq2 : PyResult := addRoom sq1.level "B" "desc" "A" "east"

def sq3 : PyResult := addRoom sq2.level "C" "desc" "B" "south"

def sq4 : PyResult := addRoom sq3.level "D" "desc" "C" "west"

/-- Closing edge of the square: `add_corridor("D", "A", 2, "north")`; the
committed result has `current_room = "D-A"`, a corridor name. -/
def sqLevel : PyResult := addCorridor sq4.level "D" "A" 2 "north"

/-- A room with a literal concrete value. -/
def mkRoomAt (n : String) (c : Coord) : Room :=
  ⟨n, "desc", c, Encounter.empty, none⟩

/-- A length-2 corridor with a literal concrete value. -/
def mkCorr2 (a b : String) (d : Direction) (cs : List Coord) : Corridor :=
  ⟨a, b, d, makeCorridorName a b, 2, [Encounter.empty, Encounter.empty], cs, []⟩

/-- Claim C7 level: room "Z" with corridors on all four sides, plus rooms
"Y" at (0, -4) and "P" at (3, -4) joined by a corridor, so that a corridor
from "Y" to "Z" fits geometrically.  Coordinates, corridor cells and the
connection table are mutually consistent and nothing overlaps. -/
def degLevel : Level :=
  { rooms := [("Z", mkRoomAt "Z" (0, 0)), ("N", mkRoomAt "N" (0, -3)),
              ("S", mkRoomAt "S" (0, 3)), ("E", mkRoomAt "E" (3, 0)),
              ("W", mkRoomAt "W" (-3, 0)), ("Y", mkRoomAt "Y" (0, -4)),
              ("P", mkRoomAt "P" (3, -4))],
    corridors := [("Z-N", mkCorr2 "Z" "N" .north [(0, -1), (0, -2)]),
                  ("Z-S", mkCorr2 "Z" "S" .south [(0, 1), (0, 2)]),
                  ("Z-E", mkCorr2 "Z" "E" .east [(1, 0), (2, 0)]),
                  ("Z-W", mkCorr2 "Z" "W" .west [(-1, 0), (-2, 0)]),
                  ("Y-P", mkCorr2 "Y" "P" .east [(1, -4), (2, -4)])],
    connections := [("Z", ⟨"N", "S", "E", "W"⟩), ("N", ⟨"", "Z", "", ""⟩),
                    ("S", ⟨"Z", "", "", ""⟩), ("E", ⟨"", "", "", "Z"⟩),
                    ("W", ⟨"", "", "Z", ""⟩), ("Y", ⟨"", "", "P", ""⟩),
                    ("P", ⟨"", "", "", "Y"⟩)],
    currentRoom := "Z" }

/-- The property reported by `check_if_in_loop` for a corridor with
endpoints `rf`, `rt`: some room other than `rt`, reachable from `rt`
without stepping onto `rf`, has a connection edge into `rf`. -/
def loopGoal (conns : Dict DirMap) (rf rt : String) : Prop :=
  ∃ r, r ≠ rt ∧ ReachAvoid conns rf rt r ∧ hasEdge conns r rf

/-- Invariant of the breadth-first traversal state of `check_if_in_loop`. -/
def loopInv (conns : Dict DirMap) (rf rt : String) (s : LoopState) : Prop :=
  (∀ x ∈ s.explored, x ∈ loopUniverse conns rt) ∧
  (∀ x ∈ s.paths, x ∈ loopUniverse conns rt) ∧
  (∀ x ∈ s.explored, ReachAvoid conns rf rt x) ∧
  (∀ x ∈ s.paths, ReachAvoid conns rf rt x) ∧
  (s.found = true → loopGoal conns rf rt) ∧
  (∀ x ∈ s.explored, ∀ z, hasEdge conns x z → z ≠ rf →
    (z ∈ s.explored ∨ z ∈ s.paths)) ∧
  (s.found = false → ∀ x ∈ s.explored, hasEdge conns x rf → x = rt) ∧
  (rt ∈ s.explored ∨ rt ∈ s.paths)

/-- Termination measure of the traversal: terminated states sit at the top,
otherwise the number of distinct explored rooms counts double and a round
whose rooms were all explored before still owes one unit. -/
def loopMeasure (conns : Dict DirMap) (rt : String) (s : LoopState) : Nat :=
  if s.found = true ∨ s.paths = [] then
    2 * (loopUniverse conns rt).toFinset.card + 2
  else
    2 * s.explored.toFinset.card +
      (if ∀ x ∈ s.paths, x ∈ s.explored then 0 else 1)

/-- Deleting from the corridors dictionary every corridor touching
`roomName` (the inner loop of `remove_hanging_rooms`). -/
def eraseTouching (d : Dict Corridor) (roomName : String) : Dict Corridor :=
  (((d.filter (fun p => p.2.roomFrom == roomName || p.2.roomTo == roomName)).map
      Prod.snd).foldl (fun dd c => dictErase dd c.name) d)

/-- Invariant of the worklist sweep of `remove_hanging_rooms`: elements come
from the anchor and the connection values, the list is duplicate-free, the
anchor is present, everything is reachable, the index is in range, and every
neighbour of a processed element is already in the list. -/
def closInv (conns : Dict DirMap) (anchor : String) (s : List String × Nat) : Prop :=
  (∀ x ∈ s.1, x ∈ loopUniverse conns anchor) ∧
  s.1.Nodup ∧
  anchor ∈ s.1 ∧
  (∀ x ∈ s.1, Reaches conns anchor x) ∧
  s.2 ≤ s.1.length ∧
  (∀ x ∈ s.1.take s.2, ∀ z, hasEdge conns x z → z ∈ s.1)

/-- Claim C8 scenario: room "A" (with a sprite) joined to "B" by the
corridor "A-B" (as `room_from`) and to "C" by the corridor "C-A" (as
`room_to`). -/
def c8Level : Level :=
  { rooms := [("A", ⟨"A", "first room", (0, 0), Encounter.empty, some "a.png"⟩),
              ("B", mkRoomAt "B" (3, 0)), ("C", mkRoomAt "C" (-3, 0))],
    corridors := [("A-B", mkCorr2 "A" "B" .east [(1, 0), (2, 0)]),
                  ("C-A", mkCorr2 "C" "A" .east [(-2, 0), (-1, 0)])],
    connections := [("A", ⟨"", "", "B", "C"⟩), ("B", ⟨"", "", "", "A"⟩),
                    ("C", ⟨"", "", "A", ""⟩)],
    currentRoom := "A" }

/- Generic lemmas about iterated step functions. -/

lemma iterateN_fixed {σ : Type} (f : σ → σ) (s : σ) (h : f s = s) :
    ∀ n, iterateN f n s = s := by
  intro n
  induction n with
  | zero => rfl
  | succ n ih =>
      show iterateN f n (f s) = s
      rw [h]
      exact ih

lemma iterateN_inv {σ : Type} (f : σ → σ) (inv : σ → Prop)
    (hinv : ∀ s, inv s → inv (f s)) :
    ∀ n s, inv s → inv (iterateN f n s) := by
  intro n
  induction n with
  | zero => intro s hs; exact hs
  | succ n ih => intro s hs; exact ih (f s) (hinv s hs)

/-- A step function that either fixes the state or strictly increases a
bounded measure reaches a fixed point within `B + 1` iterations. -/
lemma iterateN_reaches_fix {σ : Type} (f : σ → σ) (μ : σ → Nat) (inv : σ → Prop)
    (B : Nat) (hinv : ∀ s, inv s → inv (f s))
    (hstep : ∀ s, inv s → f s = s ∨ μ s < μ (f s))
    (hbound : ∀ s, inv s → μ s ≤ B) :
    ∀ n s, inv s → B < n + μ s → f (iterateN f n s) = iterateN f n s := by
  intro n
  induction n with
  | zero =>
      intro s hs hlt
      exact absurd (hbound s hs) (by omega)
  | succ n ih =>
      intro s hs hlt
      rcases hstep s hs with hfix | hincr
      · have hrun : iterateN f (n + 1) s = s := by
          show iterateN f n (f s) = s
          rw [hfix]
          exact iterateN_fixed f s hfix n
        rw [hrun]
        exact hfix
      · show f (iterateN f n (f s)) = iterateN f n (f s)
        exact ih (f s) (hinv s hs) (by omega)

/- Lemmas about the inner direction scan of `check_if_in_loop`. -/

lemma loopScanDirs_none_iff (rf rt room : String) :
    ∀ nbrs explored np,
      loopScanDirs rf rt room explored np nbrs = none ↔
        (rf ≠ "" ∧ rf ∈ nbrs ∧ room ≠ rt) := by
  intro nbrs
  induction nbrs with
  | nil =>
      intro explored np
      simp [loopScanDirs]
  | cons z rest ih =>
      intro explored np
      by_cases hz : z = ""
      · rw [show loopScanDirs rf rt room explored np (z :: rest) =
            loopScanDirs rf rt room explored np rest by
          simp [loopScanDirs, hz]]
        rw [ih]
        constructor
        · rintro ⟨h1, h2, h3⟩
          exact ⟨h1, List.mem_cons_of_mem _ h2, h3⟩
        · rintro ⟨h1, h2, h3⟩
          rcases List.mem_cons.mp h2 with h | h
          · exact absurd (h ▸ hz) h1
          · exact ⟨h1, h, h3⟩
      · by_cases hzr : z = rf
        · subst hzr
          by_cases hrt : room = rt
          · rw [show loopScanDirs z rt room explored np (z :: rest) =
                loopScanDirs z rt room explored np rest by
              simp [loopScanDirs, hz, hrt]]
            rw [ih]
            constructor
            · rintro ⟨h1, h2, h3⟩
              exact ⟨h1, List.mem_cons_of_mem _ h2, h3⟩
            · rintro ⟨h1, h2, h3⟩
              exact absurd hrt h3
          · rw [show loopScanDirs z rt room explored np (z :: rest) = none by
              simp [loopScanDirs, hz, hrt]]
            constructor
            · intro _
              exact ⟨hz, List.mem_cons_self z rest, hrt⟩
            · intro _
              rfl
        · have hstep : loopScanDirs rf rt room explored np (z :: rest) =
              loopScanDirs rf rt room explored
                (if z ∉ explored then np ++ [z] else np) rest := by
            by_cases hmem : z ∉ explored
            · simp [loopScanDirs, hz, hzr, hmem]
            · simp at hmem
              simp [loopScanDirs, hz, hzr, hmem]
          rw [hstep]
          by_cases hmem : z ∉ explored
          · rw [if_pos hmem, ih]
            constructor
            · rintro ⟨h1, h2, h3⟩
              exact ⟨h1, List.mem_cons_of_mem _ h2, h3⟩
            · rintro ⟨h1, h2, h3⟩
              rcases List.mem_cons.mp h2 with h | h
              · exact absurd h.symm hzr
              · exact ⟨h1, h, h3⟩
          · rw [if_neg hmem, ih]
            constructor
            · rintro ⟨h1, h2, h3⟩
              exact ⟨h1, List.mem_cons_of_mem _ h2, h3⟩
            · rintro ⟨h1, h2, h3⟩
              rcases List.mem_cons.mp h2 with h | h
              · exact absurd h.symm hzr
              · exact ⟨h1, h, h3⟩

lemma loopScanDirs_some (rf rt room : String) (explored : List String) :
    ∀ nbrs np np',
      loopScanDirs rf rt room explored np nbrs = some np' →
      (∀ a ∈ np', a ∈ np ∨ (a ∈ nbrs ∧ a ≠ "" ∧ a ≠ rf ∧ a ∉ explored)) ∧
      (∀ a ∈ np, a ∈ np') ∧
      (∀ z ∈ nbrs, z ≠ "" → z ≠ rf → z ∉ explored → z ∈ np') := by
  intro nbrs
  induction nbrs with
  | nil =>
      intro np np' h
      simp only [loopScanDirs, Option.some.injEq] at h
      subst h
      refine ⟨fun a ha => Or.inl ha, fun a ha => ha, ?_⟩
      intro z hz
      exact absurd hz (List.not_mem_nil z)
  | cons z rest ih =>
      intro np np' h
      by_cases hz : z = ""
      · rw [show loopScanDirs rf rt room explored np (z :: rest) =
            loopScanDirs rf rt room explored np rest by
          simp [loopScanDirs, hz]] at h
        obtain ⟨h1, h2, h3⟩ := ih np np' h
        refine ⟨?_, h2, ?_⟩
        · intro a ha
          rcases h1 a ha with hh | hh
          · exact Or.inl hh
          · exact Or.inr ⟨List.mem_cons_of_mem _ hh.1, hh.2⟩
        · intro w hw hw1 hw2 hw3
          rcases List.mem_cons.mp hw with rfl | hw'
          · exact absurd hz hw1
          · exact h3 w hw' hw1 hw2 hw3
      · by_cases hzr : z = rf
        · subst hzr
          by_cases hrt : room = rt
          · rw [show loopScanDirs z rt room explored np (z :: rest) =
                loopScanDirs z rt room explored np rest by
              simp [loopScanDirs, hz, hrt]] at h
            obtain ⟨h1, h2, h3⟩ := ih np np' h
            refine ⟨?_, h2, ?_⟩
            · intro a ha
              rcases h1 a ha with hh | hh
              · exact Or.inl hh
              · exact Or.inr ⟨List.mem_cons_of_mem _ hh.1, hh.2⟩
            · intro w hw hw1 hw2 hw3
              rcases List.mem_cons.mp hw with rfl | hw'
              · exact absurd rfl hw2
              · exact h3 w hw' hw1 hw2 hw3
          · rw [show loopScanDirs z rt room explored np (z :: rest) = none by
              simp [loopScanDirs, hz, hrt]] at h
            cases h
        · by_cases hmem : z ∉ explored
          · rw [show loopScanDirs rf rt room explored np (z :: rest) =
                loopScanDirs rf rt room explored (np ++ [z]) rest by
              simp [loopScanDirs, hz, hzr, hmem]] at h
            obtain ⟨h1, h2, h3⟩ := ih (np ++ [z]) np' h
            refine ⟨?_, ?_, ?_⟩
            · intro a ha
              rcases h1 a ha with hh | hh
              · rcases List.mem_append.mp hh with hh' | hh'
                · exact Or.inl hh'
                · have : a = z := List.mem_singleton.mp hh'
                  subst this
                  exact Or.inr ⟨List.mem_cons_self _ _, hz, hzr, hmem⟩
              · exact Or.inr ⟨List.mem_cons_of_mem _ hh.1, hh.2⟩
            · intro a ha
              exact h2 a (List.mem_append.mpr (Or.inl ha))
            · intro w hw hw1 hw2 hw3
              rcases List.mem_cons.mp hw with rfl | hw'
              · exact h2 w (List.mem_append.mpr (Or.inr (List.mem_singleton.mpr rfl)))
              · exact h3 w hw' hw1 hw2 hw3
          · rw [not_not] at hmem
            rw [show loopScanDirs rf rt room explored np (z :: rest) =
                loopScanDirs rf rt room explored np rest by
              simp [loopScanDirs, hz, hzr, hmem]] at h
            obtain ⟨h1, h2, h3⟩ := ih np np' h
            refine ⟨?_, h2, ?_⟩
            · intro a ha
              rcases h1 a ha with hh | hh
              · exact Or.inl hh
              · exact Or.inr ⟨List.mem_cons_of_mem _ hh.1, hh.2⟩
            · intro w hw hw1 hw2 hw3
              rcases List.mem_cons.mp hw with rfl | hw'
              · exact absurd hmem hw3
              · exact h3 w hw' hw1 hw2 hw3

lemma loopRound_none (conns : Dict DirMap) (rf rt : String) :
    ∀ paths explored np,
      loopRound conns rf rt explored np paths = none →
      ∃ room ∈ paths, room ≠ rt ∧ hasEdge conns room rf := by
  intro paths
  induction paths with
  | nil => intro explored np h; cases h
  | cons room rest ih =>
      intro explored np h
      rw [loopRound] at h
      rcases hscan : loopScanDirs rf rt room (explored ++ [room]) np
          (connGet conns room).valuesList with _ | np1
      · obtain ⟨h1, h2, h3⟩ := (loopScanDirs_none_iff rf rt room _ _ _).mp hscan
        exact ⟨room, List.mem_cons_self _ _, h3, h1, h2⟩
      · rw [hscan] at h
        obtain ⟨r, hr, hr2⟩ := ih (explored ++ [room]) np1 h
        exact ⟨r, List.mem_cons_of_mem _ hr, hr2⟩

lemma loopRound_some (conns : Dict DirMap) (rf rt : String) :
    ∀ paths explored np e' np',
      loopRound conns rf rt explored np paths = some (e', np') →
      e' = explored ++ paths ∧
      (∀ room ∈ paths, hasEdge conns room rf → room = rt) ∧
      (∀ a ∈ np', a ∈ np ∨
        (a ∉ explored ∧ a ≠ rf ∧ a ≠ "" ∧
          ∃ room ∈ paths, a ∈ (connGet conns room).valuesList)) ∧
      (∀ room ∈ paths, ∀ z, z ∈ (connGet conns room).valuesList →
        z ≠ "" → z ≠ rf → z ∈ e' ∨ z ∈ np') ∧
      (∀ a ∈ np, a ∈ np') := by
  intro paths
  induction paths with
  | nil =>
      intro explored np e' np' h
      simp only [loopRound, Option.some.injEq, Prod.mk.injEq] at h
      obtain ⟨rfl, rfl⟩ := h
      refine ⟨by simp, by simp, fun a ha => Or.inl ha, by simp, fun a ha => ha⟩
  | cons room rest ih =>
      intro explored np e' np' h
      rw [loopRound] at h
      rcases hscan : loopScanDirs rf rt room (explored ++ [room]) np
          (connGet conns room).valuesList with _ | np1
      · rw [hscan] at h; cases h
      · rw [hscan] at h
        obtain ⟨s1, s2, s3⟩ := loopScanDirs_some rf rt room (explored ++ [room]) _ np np1 hscan
        obtain ⟨ia, ib, ic, id, ie⟩ := ih (explored ++ [room]) np1 e' np' h
        have hnotrigger : ¬(rf ≠ "" ∧ rf ∈ (connGet conns room).valuesList ∧ room ≠ rt) := by
          intro hcontra
          have hnone := (loopScanDirs_none_iff rf rt room
            (connGet conns room).valuesList (explored ++ [room]) np).mpr hcontra
          rw [hnone] at hscan
          cases hscan
        refine ⟨?_, ?_, ?_, ?_, ?_⟩
        · rw [ia]; simp
        · intro r hr hedge
          rcases List.mem_cons.mp hr with rfl | hr'
          · by_contra hne
            exact hnotrigger ⟨hedge.1, hedge.2, hne⟩
          · exact ib r hr' hedge
        · intro a ha
          rcases ic a ha with hh | hh
          · rcases s1 a hh with h1 | h1
            · exact Or.inl h1
            · refine Or.inr ⟨fun hmem => h1.2.2.2 (List.mem_append.mpr (Or.inl hmem)),
                h1.2.2.1, h1.2.1, room, List.mem_cons_self _ _, h1.1⟩
          · refine Or.inr ⟨fun hmem => hh.1 (List.mem_append.mpr (Or.inl hmem)),
              hh.2.1, hh.2.2.1, ?_⟩
            obtain ⟨r, hr, hr2⟩ := hh.2.2.2
            exact ⟨r, List.mem_cons_of_mem _ hr, hr2⟩
        · intro r hr z hz hz1 hz2
          rcases List.mem_cons.mp hr with rfl | hr'
          · by_cases hmem : z ∈ explored ++ [r]
            · left
              rw [ia]
              exact List.mem_append.mpr (Or.inl hmem)
            · right
              exact ie z (s3 z hz hz1 hz2 hmem)
          · exact id r hr' z hz hz1 hz2
        · intro a ha
          exact ie a (s2 a ha)

lemma mem_loopUniverse_of_value (conns : Dict DirMap) (rt room z : String)
    (hz : z ∈ (connGet conns room).valuesList) (hne : z ≠ "") :
    z ∈ loopUniverse conns rt := by
  unfold connGet at hz
  rcases hfind : dictGet? conns room with _ | m
  · rw [hfind] at hz
    have : z = "" := by
      simpa [DirMap.valuesList, DirMap.empty] using hz
    exact absurd this hne
  · rw [hfind] at hz
    simp only [Option.getD] at hz
    unfold dictGet? at hfind
    rcases hmem : conns.find? (fun p => p.1 == room) with _ | p
    · rw [hmem] at hfind; cases hfind
    · rw [hmem] at hfind
      simp only [Option.map] at hfind
      have hpmem := List.mem_of_find?_eq_some hmem
      have : p.2 = m := by injection hfind
      subst this
      unfold loopUniverse
      right
      exact List.mem_flatMap.mpr ⟨p, hpmem, hz⟩

lemma loopStep_inv (conns : Dict DirMap) (rf rt : String) :
    ∀ s, loopInv conns rf rt s → loopInv conns rf rt (loopStep conns rf rt s) := by
  rintro ⟨E, P, F⟩ hs
  obtain ⟨i1, i2, i3, i4, i5, i6, i7, i8⟩ := hs
  cases F with
  | true => exact ⟨i1, i2, i3, i4, i5, i6, i7, i8⟩
  | false =>
      cases P with
      | nil => exact ⟨i1, i2, i3, i4, i5, i6, i7, i8⟩
      | cons p ps =>
          show loopInv conns rf rt
            (match loopRound conns rf rt E [] (p :: ps) with
              | none => ⟨E, p :: ps, true⟩
              | some (e, np) => ⟨e, np, false⟩)
          rcases hround : loopRound conns rf rt E [] (p :: ps) with _ | pair
          · obtain ⟨r, hr, hrne, hredge⟩ := loopRound_none conns rf rt (p :: ps) E [] hround
            refine ⟨i1, i2, i3, i4, ?_, i6, ?_, i8⟩
            · intro _
              exact ⟨r, hrne, i4 r hr, hredge⟩
            · intro hcontra
              cases hcontra
          · obtain ⟨e1, np1⟩ := pair
            obtain ⟨ra, rb, rc, rd, re⟩ :=
              loopRound_some conns rf rt (p :: ps) E [] e1 np1 hround
            subst ra
            refine ⟨?_, ?_, ?_, ?_, ?_, ?_, ?_, ?_⟩
            · intro x hx
              rcases List.mem_append.mp hx with h | h
              · exact i1 x h
              · exact i2 x h
            · intro x hx
              rcases rc x hx with h | h
              · exact absurd h (List.not_mem_nil x)
              · obtain ⟨hnx, hxrf, hxne, room, hroom, hval⟩ := h
                exact mem_loopUniverse_of_value conns rt room x hval hxne
            · intro x hx
              rcases List.mem_append.mp hx with h | h
              · exact i3 x h
              · exact i4 x h
            · intro x hx
              rcases rc x hx with h | h
              · exact absurd h (List.not_mem_nil x)
              · obtain ⟨hnx, hxrf, hxne, room, hroom, hval⟩ := h
                exact ReachAvoid.step (i4 room hroom) ⟨hxne, hval⟩ hxrf
            · intro hcontra
              cases hcontra
            · intro x hx z hzedge hzrf
              rcases List.mem_append.mp hx with h | h
              · rcases i6 x h z hzedge hzrf with h' | h'
                · exact Or.inl (List.mem_append.mpr (Or.inl h'))
                · exact Or.inl (List.mem_append.mpr (Or.inr h'))
              · exact rd x h z hzedge.2 hzedge.1 hzrf
            · intro _ x hx hxedge
              rcases List.mem_append.mp hx with h | h
              · exact i7 rfl x h hxedge
              · exact rb x h hxedge
            · rcases i8 with h | h
              · exact Or.inl (List.mem_append.mpr (Or.inl h))
              · exact Or.inl (List.mem_append.mpr (Or.inr h))

lemma loopMeasure_bound (conns : Dict DirMap) (rf rt : String) :
    ∀ s, loopInv conns rf rt s →
      loopMeasure conns rt s ≤ 2 * (loopUniverse conns rt).toFinset.card + 2 := by
  rintro ⟨E, P, F⟩ hs
  obtain ⟨i1, _, _, _, _, _, _, _⟩ := hs
  unfold loopMeasure
  dsimp only
  by_cases hterm : F = true ∨ P = []
  · rw [if_pos hterm]
  · rw [if_neg hterm]
    have hcard : E.toFinset.card ≤ (loopUniverse conns rt).toFinset.card := by
      apply Finset.card_le_card
      intro x hx
      rw [List.mem_toFinset] at hx ⊢
      exact i1 x hx
    by_cases hall : ∀ x ∈ P, x ∈ E
    · rw [if_pos hall]; omega
    · rw [if_neg hall]; omega

lemma loopStep_incr (conns : Dict DirMap) (rf rt : String) :
    ∀ s, loopInv conns rf rt s →
      loopStep conns rf rt s = s ∨
        loopMeasure conns rt s < loopMeasure conns rt (loopStep conns rf rt s) := by
  rintro ⟨E, P, F⟩ hs
  obtain ⟨i1, _, _, _, _, _, _, _⟩ := hs
  have hcard : E.toFinset.card ≤ (loopUniverse conns rt).toFinset.card := by
    apply Finset.card_le_card
    intro x hx
    rw [List.mem_toFinset] at hx ⊢
    exact i1 x hx
  cases F with
  | true => exact Or.inl rfl
  | false =>
      cases P with
      | nil => exact Or.inl rfl
      | cons p ps =>
          right
          have hμs : loopMeasure conns rt ⟨E, p :: ps, false⟩ =
              2 * E.toFinset.card + (if ∀ x ∈ p :: ps, x ∈ E then 0 else 1) := by
            simp [loopMeasure]
          have hstep : loopStep conns rf rt ⟨E, p :: ps, false⟩ =
              (match loopRound conns rf rt E [] (p :: ps) with
                | none => (⟨E, p :: ps, true⟩ : LoopState)
                | some (e, np) => ⟨e, np, false⟩) := rfl
          rw [hstep]
          rcases hround : loopRound conns rf rt E [] (p :: ps) with _ | pair
          · have : loopMeasure conns rt (⟨E, p :: ps, true⟩ : LoopState) =
                2 * (loopUniverse conns rt).toFinset.card + 2 := by
              simp [loopMeasure]
            rw [this, hμs]
            by_cases hall : ∀ x ∈ p :: ps, x ∈ E
            · rw [if_pos hall]; omega
            · rw [if_neg hall]; omega
          · obtain ⟨e1, np1⟩ := pair
            obtain ⟨ra, rb, rc, rd, re⟩ :=
              loopRound_some conns rf rt (p :: ps) E [] e1 np1 hround
            subst ra
            cases np1 with
            | nil =>
                have : loopMeasure conns rt (⟨E ++ p :: ps, [], false⟩ : LoopState) =
                    2 * (loopUniverse conns rt).toFinset.card + 2 := by
                  simp [loopMeasure]
                rw [this, hμs]
                by_cases hall : ∀ x ∈ p :: ps, x ∈ E
                · rw [if_pos hall]; omega
                · rw [if_neg hall]; omega
            | cons a as =>
                have hμ' : loopMeasure conns rt (⟨E ++ p :: ps, a :: as, false⟩ : LoopState) =
                    2 * (E ++ p :: ps).toFinset.card +
                      (if ∀ x ∈ a :: as, x ∈ E ++ p :: ps then 0 else 1) := by
                  simp [loopMeasure]
                rw [hμ', hμs]
                by_cases hall : ∀ x ∈ p :: ps, x ∈ E
                · rw [if_pos hall]
                  have hseteq : (E ++ p :: ps).toFinset = E.toFinset := by
                    rw [List.toFinset_append]
                    apply Finset.union_eq_left.mpr
                    intro x hx
                    rw [List.mem_toFinset] at hx ⊢
                    exact hall x hx
                  have hnotE : a ∉ E := by
                    rcases rc a (List.mem_cons_self a as) with h | h
                    · exact absurd h (List.not_mem_nil a)
                    · exact h.1
                  have hflag : ¬ ∀ x ∈ a :: as, x ∈ E ++ p :: ps := by
                    intro hcontra
                    have := hcontra a (List.mem_cons_self a as)
                    rcases List.mem_append.mp this with h | h
                    · exact hnotE h
                    · exact hnotE (hall a h)
                  rw [if_neg hflag, hseteq]
                  omega
                · rw [if_neg hall]
                  push_neg at hall
                  obtain ⟨x, hxP, hxE⟩ := hall
                  have hgrow : E.toFinset.card + 1 ≤ (E ++ p :: ps).toFinset.card := by
                    have hsub : insert x E.toFinset ⊆ (E ++ p :: ps).toFinset := by
                      intro y hy
                      rw [List.toFinset_append]
                      rcases Finset.mem_insert.mp hy with rfl | hy'
                      · exact Finset.mem_union_right _ (List.mem_toFinset.mpr hxP)
                      · exact Finset.mem_union_left _ hy'
                    calc E.toFinset.card + 1 = (insert x E.toFinset).card := by
                          rw [Finset.card_insert_of_not_mem (by
                            rw [List.mem_toFinset]; exact hxE)]
                      _ ≤ _ := Finset.card_le_card hsub
                  by_cases hflag : ∀ x ∈ a :: as, x ∈ E ++ p :: ps
                  · rw [if_pos hflag]; omega
                  · rw [if_neg hflag]; omega

lemma loopStep_fix_char (conns : Dict DirMap) (rf rt : String) :
    ∀ s, loopStep conns rf rt s = s → s.found = true ∨ s.paths = [] := by
  rintro ⟨E, P, F⟩ h
  cases F with
  | true => exact Or.inl rfl
  | false =>
      cases P with
      | nil => exact Or.inr rfl
      | cons p ps =>
          exfalso
          have hstep : loopStep conns rf rt ⟨E, p :: ps, false⟩ =
              (match loopRound conns rf rt E [] (p :: ps) with
                | none => (⟨E, p :: ps, true⟩ : LoopState)
                | some (e, np) => ⟨e, np, false⟩) := rfl
          rw [hstep] at h
          rcases hround : loopRound conns rf rt E [] (p :: ps) with _ | pair
          · rw [hround] at h
            simp at h
          · obtain ⟨e1, np1⟩ := pair
            rw [hround] at h
            obtain ⟨ra, _, _, _, _⟩ :=
              loopRound_some conns rf rt (p :: ps) E [] e1 np1 hround
            have he : e1 = E := by
              have := congrArg LoopState.explored h
              exact this
            rw [ra] at he
            have := congrArg List.length he
            simp at this

/-- Correctness of the loop detector: `check_if_in_loop` returns `true`
exactly when some room other than `room_to`, reachable from `room_to`
without stepping onto `room_from`, has a connection edge into `room_from`. -/
lemma checkIfInLoop_iff_loopGoal (corridor : Corridor) (conns : Dict DirMap) :
    checkIfInLoop corridor conns = true ↔
      loopGoal conns corridor.roomFrom corridor.roomTo := by
  have hcard : (loopUniverse conns corridor.roomTo).toFinset.card =
      (loopUniverse conns corridor.roomTo).dedup.length :=
    List.card_toFinset _
  have hinv0 : loopInv conns corridor.roomFrom corridor.roomTo
      ⟨[], [corridor.roomTo], false⟩ := by
    refine ⟨?_, ?_, ?_, ?_, ?_, ?_, ?_, ?_⟩
    · intro x hx; exact absurd hx (List.not_mem_nil x)
    · intro x hx
      have : x = corridor.roomTo := List.mem_singleton.mp hx
      subst this
      exact List.mem_cons_self _ _
    · intro x hx; exact absurd hx (List.not_mem_nil x)
    · intro x hx
      have : x = corridor.roomTo := List.mem_singleton.mp hx
      subst this
      exact ReachAvoid.refl _
    · intro h; cases h
    · intro x hx; exact absurd hx (List.not_mem_nil x)
    · intro _ x hx; exact absurd hx (List.not_mem_nil x)
    · exact Or.inr (List.mem_singleton.mpr rfl)
  have hfinalinv := iterateN_inv (loopStep conns corridor.roomFrom corridor.roomTo)
    (loopInv conns corridor.roomFrom corridor.roomTo)
    (loopStep_inv conns corridor.roomFrom corridor.roomTo)
    (2 * (loopUniverse conns corridor.roomTo).dedup.length + 3)
    ⟨[], [corridor.roomTo], false⟩ hinv0
  have hfix := iterateN_reaches_fix (loopStep conns corridor.roomFrom corridor.roomTo)
    (loopMeasure conns corridor.roomTo)
    (loopInv conns corridor.roomFrom corridor.roomTo)
    (2 * (loopUniverse conns corridor.roomTo).toFinset.card + 2)
    (loopStep_inv conns corridor.roomFrom corridor.roomTo)
    (loopStep_incr conns corridor.roomFrom corridor.roomTo)
    (loopMeasure_bound conns corridor.roomFrom corridor.roomTo)
    (2 * (loopUniverse conns corridor.roomTo).dedup.length + 3)
    ⟨[], [corridor.roomTo], false⟩ hinv0 (by omega)
  obtain ⟨f1, f2, f3, f4, f5, f6, f7, f8⟩ := hfinalinv
  have hres : checkIfInLoop corridor conns =
      (iterateN (loopStep conns corridor.roomFrom corridor.roomTo)
        (2 * (loopUniverse conns corridor.roomTo).dedup.length + 3)
        ⟨[], [corridor.roomTo], false⟩).found := rfl
  constructor
  · intro h
    rw [hres] at h
    exact f5 h
  · intro hgoal
    rw [hres]
    by_contra hfound
    have hfoundfalse :
        (iterateN (loopStep conns corridor.roomFrom corridor.roomTo)
          (2 * (loopUniverse conns corridor.roomTo).dedup.length + 3)
          ⟨[], [corridor.roomTo], false⟩).found = false :=
      Bool.not_eq_true _ ▸ Bool.of_not_eq_true hfound
    have hpaths :
        (iterateN (loopStep conns corridor.roomFrom corridor.roomTo)
          (2 * (loopUniverse conns corridor.roomTo).dedup.length + 3)
          ⟨[], [corridor.roomTo], false⟩).paths = [] := by
      rcases loopStep_fix_char conns corridor.roomFrom corridor.roomTo _ hfix with h | h
      · rw [hfoundfalse] at h; cases h
      · exact h
    obtain ⟨r, hrne, hreach, hredge⟩ := hgoal
    have hexp : ∀ y, ReachAvoid conns corridor.roomFrom corridor.roomTo y →
        y ∈ (iterateN (loopStep conns corridor.roomFrom corridor.roomTo)
          (2 * (loopUniverse conns corridor.roomTo).dedup.length + 3)
          ⟨[], [corridor.roomTo], false⟩).explored := by
      intro y hy
      induction hy with
      | refl =>
          rcases f8 with h | h
          · exact h
          · rw [hpaths] at h
            exact absurd h (List.not_mem_nil _)
      | step hxy hedge hne ih =>
          rcases f6 _ ih _ hedge hne with h | h
          · exact h
          · rw [hpaths] at h
            exact absurd h (List.not_mem_nil _)
    exact hrne (f7 hfoundfalse r (hexp r hreach) hredge)

lemma addNewRooms_spec :
    ∀ values seen,
      (∃ extra, addNewRooms seen values = seen ++ extra ∧
        ∀ a ∈ extra, a ∈ values ∧ a ≠ "" ∧ a ∉ seen) ∧
      (∀ z ∈ values, z ≠ "" → z ∈ addNewRooms seen values) ∧
      (seen.Nodup → (addNewRooms seen values).Nodup) := by
  intro values
  induction values with
  | nil =>
      intro seen
      refine ⟨⟨[], by simp [addNewRooms], by simp⟩, by simp, fun h => by
        simpa [addNewRooms] using h⟩
  | cons z rest ih =>
      intro seen
      by_cases hcond : z ≠ "" ∧ z ∉ seen
      · have hstep : addNewRooms seen (z :: rest) = addNewRooms (seen ++ [z]) rest := by
          simp only [addNewRooms, if_pos hcond]
        obtain ⟨⟨extra, hex, hexP⟩, hcomp, hnd⟩ := ih (seen ++ [z])
        rw [hstep]
        refine ⟨⟨z :: extra, ?_, ?_⟩, ?_, ?_⟩
        · rw [hex]; simp
        · intro a ha
          rcases List.mem_cons.mp ha with rfl | ha'
          · exact ⟨List.mem_cons_self _ _, hcond.1, hcond.2⟩
          · obtain ⟨h1, h2, h3⟩ := hexP a ha'
            exact ⟨List.mem_cons_of_mem _ h1, h2,
              fun hmem => h3 (List.mem_append.mpr (Or.inl hmem))⟩
        · intro w hw hw1
          rcases List.mem_cons.mp hw with rfl | hw'
          · rw [hex]
            exact List.mem_append.mpr (Or.inl (List.mem_append.mpr
              (Or.inr (List.mem_singleton.mpr rfl))))
          · exact hcomp w hw' hw1
        · intro hseen
          apply hnd
          rw [List.nodup_append]
          refine ⟨hseen, List.nodup_singleton z, ?_⟩
          intro a ha hz
          rw [List.mem_singleton] at hz
          exact hcond.2 (hz ▸ ha)
      · have hstep : addNewRooms seen (z :: rest) = addNewRooms seen rest := by
          simp only [addNewRooms, if_neg hcond]
        obtain ⟨⟨extra, hex, hexP⟩, hcomp, hnd⟩ := ih seen
        rw [hstep]
        refine ⟨⟨extra, hex, ?_⟩, ?_, hnd⟩
        · intro a ha
          obtain ⟨h1, h2, h3⟩ := hexP a ha
          exact ⟨List.mem_cons_of_mem _ h1, h2, h3⟩
        · intro w hw hw1
          rcases List.mem_cons.mp hw with rfl | hw'
          · rcases not_and_or.mp hcond with h | h
            · exact absurd hw1 (by simpa using h)
            · rw [not_not] at h
              obtain ⟨extra2, hex2, _⟩ := (ih seen).1
              rw [hex2]
              exact List.mem_append.mpr (Or.inl h)
          · exact hcomp w hw' hw1

lemma dictGet?_eq_none_of_not_contains {α : Type} (d : Dict α) (k : String)
    (h : ¬ dictContains d k = true) : dictGet? d k = none := by
  unfold dictContains at h
  unfold dictGet?
  rcases hf : d.find? (fun q => q.1 == k) with _ | q
  · rw [hf]
    rfl
  · exfalso
    apply h
    rw [List.any_eq_true]
    have hq := @List.find?_some _ (fun r : String × α => r.1 == k) q d hf
    exact ⟨q, List.mem_of_find?_eq_some hf, hq⟩

lemma connGet_of_not_contains (conns : Dict DirMap) (room : String)
    (h : ¬ dictContains conns room = true) : connGet conns room = DirMap.empty := by
  unfold connGet
  rw [dictGet?_eq_none_of_not_contains conns room h]
  rfl

lemma not_hasEdge_empty (z : String) (hz : z ≠ "") :
    ¬ z ∈ DirMap.empty.valuesList := by
  intro h
  have : z = "" := by simpa [DirMap.valuesList, DirMap.empty] using h
  exact hz this

lemma closureStep_inv (conns : Dict DirMap) (anchor : String) :
    ∀ s, closInv conns anchor s → closInv conns anchor (closureStep conns s) := by
  rintro ⟨seen, i⟩ ⟨c1, c2, c3, c4, c5, c6⟩
  dsimp only at c1 c2 c3 c4 c5 c6
  unfold closureStep
  dsimp only
  by_cases hlt : i < seen.length
  · rw [dif_pos hlt]
    have htake : seen.take (i + 1) = seen.take i ++ [seen.get ⟨i, hlt⟩] := by
      rw [List.take_succ, List.getElem?_eq_getElem hlt]
      rfl
    by_cases hcont : dictContains conns (seen.get ⟨i, hlt⟩) = true
    · rw [if_pos hcont]
      obtain ⟨⟨extra, hex, hexP⟩, hcomp, hnd⟩ :=
        addNewRooms_spec (connGet conns (seen.get ⟨i, hlt⟩)).valuesList seen
      have hroomem : seen.get ⟨i, hlt⟩ ∈ seen := List.get_mem seen i hlt
      refine ⟨?_, hnd c2, ?_, ?_, ?_, ?_⟩
      · intro x hx
        dsimp only at hx
        rw [hex] at hx
        rcases List.mem_append.mp hx with h | h
        · exact c1 x h
        · obtain ⟨h1, h2, _⟩ := hexP x h
          exact mem_loopUniverse_of_value conns anchor _ x h1 h2
      · dsimp only
        rw [hex]
        exact List.mem_append.mpr (Or.inl c3)
      · intro x hx
        dsimp only at hx ⊢
        rw [hex] at hx
        rcases List.mem_append.mp hx with h | h
        · exact c4 x h
        · obtain ⟨h1, h2, _⟩ := hexP x h
          exact ReachAvoid.step (c4 _ hroomem) ⟨h2, h1⟩ h2
      · dsimp only
        rw [hex]
        simp only [List.length_append]
        omega
      · intro x hx z hz
        dsimp only at hx ⊢
        rw [hex, List.take_append_of_le_length (by omega), htake] at hx
        rcases List.mem_append.mp hx with h | h
        · have := c6 x h z hz
          rw [hex]
          exact List.mem_append.mpr (Or.inl this)
        · have hx' : x = seen.get ⟨i, hlt⟩ := List.mem_singleton.mp h
          subst hx'
          exact hcomp z hz.2 hz.1
    · rw [if_neg hcont]
      refine ⟨c1, c2, c3, c4, by dsimp only; omega, ?_⟩
      intro x hx z hz
      dsimp only at hx ⊢
      rw [htake] at hx
      rcases List.mem_append.mp hx with h | h
      · exact c6 x h z hz
      · have hx' : x = seen.get ⟨i, hlt⟩ := List.mem_singleton.mp h
        subst hx'
        obtain ⟨hz1, hz2⟩ := hz
        rw [connGet_of_not_contains conns _ hcont] at hz2
        exact absurd hz2 (not_hasEdge_empty z hz1)
  · rw [dif_neg hlt]
    exact ⟨c1, c2, c3, c4, c5, c6⟩

lemma closureStep_incr (conns : Dict DirMap) (anchor : String) :
    ∀ s, closInv conns anchor s →
      closureStep conns s = s ∨ s.2 < (closureStep conns s).2 := by
  rintro ⟨seen, i⟩ _
  unfold closureStep
  dsimp only
  by_cases hlt : i < seen.length
  · rw [dif_pos hlt]
    by_cases hcont : dictContains conns (seen.get ⟨i, hlt⟩) = true
    · rw [if_pos hcont]; right; omega
    · rw [if_neg hcont]; right; omega
  · rw [dif_neg hlt]; left; rfl

lemma closureStep_bound (conns : Dict DirMap) (anchor : String) :
    ∀ s, closInv conns anchor s →
      s.2 ≤ (loopUniverse conns anchor).toFinset.card := by
  rintro ⟨seen, i⟩ ⟨c1, c2, _, _, c5, _⟩
  have h1 : seen.toFinset.card = seen.length := List.toFinset_card_of_nodup c2
  have h2 : seen.toFinset.card ≤ (loopUniverse conns anchor).toFinset.card := by
    apply Finset.card_le_card
    intro x hx
    rw [List.mem_toFinset] at hx ⊢
    exact c1 x hx
  dsimp only at c5 ⊢
  omega

lemma closureStep_fix_char (conns : Dict DirMap) :
    ∀ s, closureStep conns s = s → s.1.length ≤ s.2 := by
  rintro ⟨seen, i⟩ h
  by_contra hlt
  rw [not_le] at hlt
  unfold closureStep at h
  dsimp only at h
  rw [dif_pos hlt] at h
  by_cases hcont : dictContains conns (seen.get ⟨i, hlt⟩) = true
  · rw [if_pos hcont] at h
    have := congrArg Prod.snd h
    simp at this
  · rw [if_neg hcont] at h
    have := congrArg Prod.snd h
    simp at this

/-- Correctness of the reachability sweep of `remove_hanging_rooms`: the
computed `connected_rooms` list contains exactly the names reachable from
the anchor over the connection values. -/
lemma connectedRooms_iff (conns : Dict DirMap) (anchor : String) :
    ∀ x, x ∈ connectedRooms conns anchor ↔ Reaches conns anchor x := by
  have hinv0 : closInv conns anchor ([anchor], 0) := by
    refine ⟨?_, List.nodup_singleton _, List.mem_singleton.mpr rfl, ?_, by simp, ?_⟩
    · intro x hx
      have : x = anchor := List.mem_singleton.mp hx
      subst this
      exact List.mem_cons_self _ _
    · intro x hx
      have : x = anchor := List.mem_singleton.mp hx
      subst this
      exact ReachAvoid.refl _
    · intro x hx
      simp at hx
  have hfinalinv := iterateN_inv (closureStep conns) (closInv conns anchor)
    (closureStep_inv conns anchor)
    ((loopUniverse conns anchor).dedup.length + 2) ([anchor], 0) hinv0
  have hfix := iterateN_reaches_fix (closureStep conns) Prod.snd
    (closInv conns anchor) ((loopUniverse conns anchor).toFinset.card)
    (closureStep_inv conns anchor) (closureStep_incr conns anchor)
    (closureStep_bound conns anchor)
    ((loopUniverse conns anchor).dedup.length + 2) ([anchor], 0) hinv0
    (by
      have := List.card_toFinset (loopUniverse conns anchor)
      omega)
  obtain ⟨c1, c2, c3, c4, c5, c6⟩ := hfinalinv
  have hres : connectedRooms conns anchor =
      (iterateN (closureStep conns) ((loopUniverse conns anchor).dedup.length + 2)
        ([anchor], 0)).1 := rfl
  intro x
  constructor
  · intro hx
    rw [hres] at hx
    exact c4 x hx
  · intro hx
    rw [hres]
    have hdone := closureStep_fix_char conns _ hfix
    have htake :
        (iterateN (closureStep conns) ((loopUniverse conns anchor).dedup.length + 2)
          ([anchor], 0)).1.take
          (iterateN (closureStep conns) ((loopUniverse conns anchor).dedup.length + 2)
            ([anchor], 0)).2 =
        (iterateN (closureStep conns) ((loopUniverse conns anchor).dedup.length + 2)
          ([anchor], 0)).1 :=
      List.take_of_length_le hdone
    rw [htake] at c6
    induction hx with
    | refl => exact c3
    | step hxy hedge hne ih =>
        exact c6 _ ih _ hedge

/- Association-list lemmas. -/

lemma dict_entry_unique {α : Type} (d : Dict α) (h : (dictKeys d).Nodup) :
    ∀ p ∈ d, ∀ q ∈ d, p.1 = q.1 → p = q := by
  induction d with
  | nil => intro p hp; exact absurd hp (List.not_mem_nil p)
  | cons a t ih =>
      have h1 : a.1 ∉ dictKeys t := by
        have := List.nodup_cons.mp h
        exact this.1
      have h2 : (dictKeys t).Nodup := (List.nodup_cons.mp h).2
      intro p hp q hq hpq
      rcases List.mem_cons.mp hp with rfl | hp'
      · rcases List.mem_cons.mp hq with rfl | hq'
        · rfl
        · exfalso
          apply h1
          rw [hpq]
          exact List.mem_map.mpr ⟨q, hq', rfl⟩
      · rcases List.mem_cons.mp hq with rfl | hq'
        · exfalso
          apply h1
          rw [← hpq]
          exact List.mem_map.mpr ⟨p, hp', rfl⟩
        · exact ih h2 p hp' q hq' hpq

lemma dictKeys_filter_nodup {α : Type} (d : Dict α) (f : String × α → Bool)
    (h : (dictKeys d).Nodup) : (dictKeys (d.filter f)).Nodup := by
  unfold dictKeys at *
  exact ((List.filter_sublist d).map Prod.fst).nodup h

lemma dictErase_eq_filter {α : Type} (k : String) :
    ∀ d : Dict α, (dictKeys d).Nodup →
      dictErase d k = d.filter (fun p => p.1 != k) := by
  intro d
  induction d with
  | nil => intro _; rfl
  | cons a t ih =>
      intro h
      have h1 : a.1 ∉ dictKeys t := (List.nodup_cons.mp h).1
      have h2 : (dictKeys t).Nodup := (List.nodup_cons.mp h).2
      obtain ⟨a1, a2⟩ := a
      by_cases hk : a1 = k
      · subst hk
        rw [show dictErase ((a1, a2) :: t) a1 = t by simp [dictErase]]
        rw [show ((a1, a2) :: t).filter (fun p => p.1 != a1) =
            t.filter (fun p => p.1 != a1) by simp [List.filter]]
        symm
        apply List.filter_eq_self.mpr
        intro p hp
        have : p.1 ∈ dictKeys t := List.mem_map.mpr ⟨p, hp, rfl⟩
        simp only [bne_iff_ne, ne_eq]
        intro hcontra
        exact h1 (hcontra ▸ this)
      · rw [show dictErase ((a1, a2) :: t) k = (a1, a2) :: dictErase t k by
          simp [dictErase, hk]]
        rw [show ((a1, a2) :: t).filter (fun p => p.1 != k) =
            (a1, a2) :: t.filter (fun p => p.1 != k) by
          have : ((a1, a2).1 != k) = true := bne_iff_ne.mpr hk
          rw [List.filter_cons, this]
          simp]
        rw [ih h2]

lemma foldl_dictErase_eq_filter {α : Type} :
    ∀ (names : List String) (d : Dict α), (dictKeys d).Nodup →
      names.foldl (fun acc r => dictErase acc r) d =
        d.filter (fun p => !(names.contains p.1)) := by
  intro names
  induction names with
  | nil =>
      intro d _
      simp
  | cons r rest ih =>
      intro d h
      rw [show (r :: rest).foldl (fun acc x => dictErase acc x) d =
          rest.foldl (fun acc x => dictErase acc x) (dictErase d r) from rfl]
      rw [dictErase_eq_filter r d h]
      rw [ih (d.filter (fun p => p.1 != r)) (dictKeys_filter_nodup d _ h)]
      rw [List.filter_filter]
      apply List.filter_congr
      intro p _
      rw [List.contains_cons]
      by_cases h1 : p.1 = r
      · subst h1
        simp
      · have hne : (p.1 != r) = true := bne_iff_ne.mpr h1
        have hne2 : (p.1 == r) = false := beq_eq_false_iff_ne.mpr h1
        rw [hne, hne2]
        simp

lemma eraseTouching_eq_filter (d : Dict Corridor) (r : String)
    (hnd : (dictKeys d).Nodup) (hkn : ∀ p ∈ d, p.1 = p.2.name) :
    eraseTouching d r =
      d.filter (fun p => !(p.2.roomFrom == r || p.2.roomTo == r)) := by
  unfold eraseTouching
  rw [← List.foldl_map (f := Corridor.name)
    (g := fun (dd : Dict Corridor) (n : String) => dictErase dd n)]
  rw [foldl_dictErase_eq_filter _ d hnd]
  apply List.filter_congr
  intro p hp
  have hname : p.1 = p.2.name := hkn p hp
  by_cases htouch : (p.2.roomFrom == r || p.2.roomTo == r) = true
  · rw [htouch]
    have hmem : p.2.name ∈
        ((d.filter (fun q => q.2.roomFrom == r || q.2.roomTo == r)).map
          Prod.snd).map Corridor.name := by
      apply List.mem_map.mpr
      refine ⟨p.2, List.mem_map.mpr ⟨p, ?_, rfl⟩, rfl⟩
      exact List.mem_filter.mpr ⟨hp, htouch⟩
    have : (((d.filter (fun q => q.2.roomFrom == r || q.2.roomTo == r)).map
        Prod.snd).map Corridor.name).contains p.1 = true := by
      rw [List.contains_eq_any_beq]
      rw [List.any_eq_true]
      refine ⟨p.2.name, hmem, ?_⟩
      rw [hname]
      exact beq_self_eq_true _
    rw [this]
  · have hfalse : (p.2.roomFrom == r || p.2.roomTo == r) = false :=
      Bool.not_eq_true _ ▸ Bool.of_not_eq_true htouch
    rw [hfalse]
    have : (((d.filter (fun q => q.2.roomFrom == r || q.2.roomTo == r)).map
        Prod.snd).map Corridor.name).contains p.1 = false := by
      rw [Bool.eq_false_iff]
      intro hcontra
      rw [List.contains_eq_any_beq, List.any_eq_true] at hcontra
      obtain ⟨n, hn, hbeq⟩ := hcontra
      obtain ⟨c, hc, rfl⟩ := List.mem_map.mp hn
      obtain ⟨q, hq, rfl⟩ := List.mem_map.mp hc
      have hqd := List.mem_filter.mp hq
      have hqname : q.1 = q.2.name := hkn q hqd.1
      have hkeyeq : p.1 = q.1 := by
        rw [hqname]
        exact eq_of_beq hbeq
      have := dict_entry_unique d hnd p hp q hqd.1 hkeyeq
      rw [this] at htouch
      exact htouch hqd.2
    rw [this]

lemma eraseTouching_key_name (d : Dict Corridor) (r : String)
    (hnd : (dictKeys d).Nodup) (hkn : ∀ p ∈ d, p.1 = p.2.name) :
    ∀ p ∈ eraseTouching d r, p.1 = p.2.name := by
  rw [eraseTouching_eq_filter d r hnd hkn]
  intro p hp
  exact hkn p (List.mem_filter.mp hp).1

lemma foldl_eraseTouching_eq_filter :
    ∀ (names : List String) (d : Dict Corridor), (dictKeys d).Nodup →
      (∀ p ∈ d, p.1 = p.2.name) →
      names.foldl (fun acc r => eraseTouching acc r) d =
        d.filter (fun p =>
          !(names.contains p.2.roomFrom || names.contains p.2.roomTo)) := by
  intro names
  induction names with
  | nil =>
      intro d _ _
      simp
  | cons r rest ih =>
      intro d hnd hkn
      rw [show (r :: rest).foldl (fun acc x => eraseTouching acc x) d =
          rest.foldl (fun acc x => eraseTouching acc x) (eraseTouching d r) from rfl]
      rw [eraseTouching_eq_filter d r hnd hkn]
      rw [ih _ (dictKeys_filter_nodup d _ hnd)
        (fun p hp => hkn p (List.mem_filter.mp hp).1)]
      rw [List.filter_filter]
      apply List.filter_congr
      intro p _
      rw [List.contains_cons, List.contains_cons]
      cases hA1 : rest.contains p.2.roomFrom <;>
        cases hA2 : rest.contains p.2.roomTo <;>
        cases hB1 : (p.2.roomFrom == r) <;>
        cases hB2 : (p.2.roomTo == r) <;> rfl

lemma prunerFold_decompose :
    ∀ (names : List String) (R : Dict Room) (C : Dict Corridor)
      (K : Dict DirMap) (cur : String),
      names.foldl
        (fun (lvl : Level) (room : String) =>
          let lvl1 : Level :=
            { lvl with
                rooms := dictErase lvl.rooms room,
                connections := dictErase lvl.connections room }
          { lvl1 with
              corridors :=
                (lvl1.getCorridorsByRoom room).foldl
                  (fun d c => dictErase d c.name) lvl1.corridors })
        ⟨R, C, K, cur⟩ =
      ⟨names.foldl (fun d r => dictErase d r) R,
        names.foldl (fun d r => eraseTouching d r) C,
        names.foldl (fun d r => dictErase d r) K, cur⟩ := by
  intro names
  induction names with
  | nil => intro R C K cur; rfl
  | cons r rest ih =>
      intro R C K cur
      exact ih (dictErase R r) (eraseTouching C r) (dictErase K r) cur

lemma removeHangingRooms_filters (level : Level) (ref : Option String)
    (h1 : (dictKeys level.rooms).Nodup) (h2 : (dictKeys level.corridors).Nodup)
    (h3 : (dictKeys level.connections).Nodup)
    (h4 : ∀ p ∈ level.corridors, p.1 = p.2.name) :
    level.removeHangingRooms ref =
      { rooms :=
          level.rooms.filter (fun p =>
            !(((dictKeys level.rooms).filter (fun r =>
              r ∉ connectedRooms level.connections
                (match ref with | some r => r | none => level.currentRoom))).contains p.1)),
        corridors :=
          level.corridors.filter (fun p =>
            !(((dictKeys level.rooms).filter (fun r =>
                r ∉ connectedRooms level.connections
                  (match ref with | some r => r | none => level.currentRoom))).contains p.2.roomFrom ||
              ((dictKeys level.rooms).filter (fun r =>
                r ∉ connectedRooms level.connections
                  (match ref with | some r => r | none => level.currentRoom))).contains p.2.roomTo)),
        connections :=
          level.connections.filter (fun p =>
            !(((dictKeys level.rooms).filter (fun r =>
              r ∉ connectedRooms level.connections
                (match ref with | some r => r | none => level.currentRoom))).contains p.1)),
        currentRoom := level.currentRoom } := by
  obtain ⟨R, C, K, cur⟩ := level
  unfold Level.removeHangingRooms
  dsimp only at h1 h2 h3 h4 ⊢
  rw [prunerFold_decompose]
  rw [foldl_dictErase_eq_filter _ R h1]
  rw [foldl_dictErase_eq_filter _ K h3]
  rw [foldl_eraseTouching_eq_filter _ C h2 h4]

lemma mem_hanging_iff (level : Level) (anchor r : String) :
    (r ∈ (dictKeys level.rooms).filter
      (fun x => x ∉ connectedRooms level.connections anchor)) ↔
    hangsFor level anchor r := by
  rw [List.mem_filter]
  unfold hangsFor
  rw [decide_eq_true_iff]
  rw [connectedRooms_iff]

lemma contains_iff_mem_str (l : List String) (a : String) :
    l.contains a = true ↔ a ∈ l := by
  rw [List.contains_eq_any_beq, List.any_eq_true]
  constructor
  · rintro ⟨x, hx, hbeq⟩
    rw [eq_of_beq hbeq]
    exact hx
  · intro h
    exact ⟨a, h, beq_self_eq_true a⟩

lemma bnot_contains_hanging_iff (level : Level) (anchor r : String) :
    ((!((dictKeys level.rooms).filter
      (fun x => x ∉ connectedRooms level.connections anchor)).contains r) = true) ↔
    ¬ hangsFor level anchor r := by
  constructor
  · intro h hcontra
    rw [← mem_hanging_iff] at hcontra
    rw [← contains_iff_mem_str] at hcontra
    rw [hcontra] at h
    cases h
  · intro h
    cases hc : ((dictKeys level.rooms).filter
        (fun x => x ∉ connectedRooms level.connections anchor)).contains r with
    | false => rfl
    | true =>
        exact absurd ((mem_hanging_iff _ _ _).mp
          ((contains_iff_mem_str _ _).mp hc)) h

/-- Claim C4 (amended): `remove_hanging_rooms` deletes exactly the rooms not
reachable from its anchor over the connection values, together with their
incident corridors and their connection entries, and leaves `current_room`
untouched. -/
theorem c4_pruner_deletes_unreachable (level : Level) (anchor : String)
    (h1 : (dictKeys level.rooms).Nodup) (h2 : (dictKeys level.corridors).Nodup)
    (h3 : (dictKeys level.connections).Nodup)
    (h4 : ∀ p ∈ level.corridors, p.1 = p.2.name) :
    (∀ p, p ∈ (level.removeHangingRooms (some anchor)).rooms ↔
      p ∈ level.rooms ∧ Reaches level.connections anchor p.1) ∧
    (∀ q, q ∈ (level.removeHangingRooms (some anchor)).corridors ↔
      q ∈ level.corridors ∧ ¬ hangsFor level anchor q.2.roomFrom ∧
        ¬ hangsFor level anchor q.2.roomTo) ∧
    (∀ q, q ∈ (level.removeHangingRooms (some anchor)).connections ↔
      q ∈ level.connections ∧ ¬ hangsFor level anchor q.1) ∧
    (level.removeHangingRooms (some anchor)).currentRoom = level.currentRoom := by
  have hfil := removeHangingRooms_filters level (some anchor) h1 h2 h3 h4
  refine ⟨?_, ?_, ?_, by rw [hfil]⟩
  · intro p
    rw [hfil]
    dsimp only
    rw [List.mem_filter]
    constructor
    · rintro ⟨hp, hb⟩
      refine ⟨hp, ?_⟩
      have hnh := (bnot_contains_hanging_iff level anchor p.1).mp hb
      unfold hangsFor at hnh
      push_neg at hnh
      exact hnh (List.mem_map.mpr ⟨p, hp, rfl⟩)
    · rintro ⟨hp, hreach⟩
      refine ⟨hp, ?_⟩
      apply (bnot_contains_hanging_iff level anchor p.1).mpr
      intro hcontra
      exact hcontra.2 hreach
  · intro q
    rw [hfil]
    dsimp only
    rw [List.mem_filter]
    constructor
    · rintro ⟨hq, hb⟩
      rw [Bool.not_or] at hb
      rw [Bool.and_eq_true] at hb
      exact ⟨hq, (bnot_contains_hanging_iff level anchor _).mp hb.1,
        (bnot_contains_hanging_iff level anchor _).mp hb.2⟩
    · rintro ⟨hq, hfrom, hto⟩
      refine ⟨hq, ?_⟩
      rw [Bool.not_or, Bool.and_eq_true]
      exact ⟨(bnot_contains_hanging_iff level anchor _).mpr hfrom,
        (bnot_contains_hanging_iff level anchor _).mpr hto⟩
  · intro q
    rw [hfil]
    dsimp only
    rw [List.mem_filter]
    constructor
    · rintro ⟨hq, hb⟩
      exact ⟨hq, (bnot_contains_hanging_iff level anchor _).mp hb⟩
    · rintro ⟨hq, hb⟩
      exact ⟨hq, (bnot_contains_hanging_iff level anchor _).mpr hb⟩

/-- Claim C9: `get_rotation` is the signed index difference in the cyclic
order [NORTH, EAST, SOUTH, WEST]; rotating by it lands on the target
direction; rotating any direction there and back is the identity. -/
theorem c9_rotation_correct :
    (∀ d1 d2 : Direction,
      getRotation d1 d2 =
        ((orderedDirections.indexOf d2 : Int) -
          (orderedDirections.indexOf d1 : Int))) ∧
    (∀ d1 d2 : Direction, getRotatedDirection d1 (getRotation d1 d2) = d2) ∧
    (∀ d d1 d2 : Direction,
      getRotatedDirection (getRotatedDirection d (getRotation d1 d2))
        (getRotation d2 d1) = d) := by
  refine ⟨?_, ?_, ?_⟩
  · intro d1 d2
    cases d1 <;> cases d2 <;> rfl
  · intro d1 d2
    cases d1 <;> cases d2 <;> rfl
  · intro d d1 d2
    cases d <;> cases d1 <;> cases d2 <;> rfl

/-- Claim C6: starting from an empty level, `add_room("A","desc","","")`
then `add_room("B","desc","A","east")` commit, producing corridor "A-B" of
length `corridor_min_length`, A at (0,0), B at (corridor_min_length+1, 0)
and `current_room = "B"`; updating "A-B" to direction south with the same
length commits, moves B to (0, corridor_min_length+1) and leaves A at
(0,0). -/
theorem c6_concrete_scenario :
    lvlA.isOk = true ∧
    lvlAB.isOk = true ∧
    (dictGet? lvlAB.level.corridors "A-B").isSome = true ∧
    (dictGet? lvlAB.level.corridors "A-B").map Corridor.length =
      some corridorMinLength ∧
    (dictGet? lvlAB.level.rooms "A").map Room.coords = some (0, 0) ∧
    (dictGet? lvlAB.level.rooms "B").map Room.coords =
      some (corridorMinLength + 1, 0) ∧
    lvlAB.level.currentRoom = "B" ∧
    lvlABSouth.isOk = true ∧
    (dictGet? lvlABSouth.level.rooms "B").map Room.coords =
      some (0, corridorMinLength + 1) ∧
    (dictGet? lvlABSouth.level.rooms "A").map Room.coords = some (0, 0) := by
  decide

/-- Claim C5: `check_if_in_loop` returns true exactly when the corridor lies
on a cycle of the connection graph in the sense of the spec (the traversal
from `room_to` reaches `room_from` by a path other than the corridor
itself), and on the four-room square every edge update is rejected with the
loop error, leaving the level unchanged. -/
theorem c5_loop_immutability :
    (∀ (corridor : Corridor) (conns : Dict DirMap),
      checkIfInLoop corridor conns = true ↔ specOnCycle corridor conns) ∧
    sqLevel.isOk = true ∧
    updateCorridor sqLevel.level "A" "B" "A" "B" 2 "east" =
      PyResult.exn sqLevel.level
        "Could not update corridor: corridors in a closed loop cannot be altered." ∧
    updateCorridor sqLevel.level "B" "C" "B" "C" 2 "south" =
      PyResult.exn sqLevel.level
        "Could not update corridor: corridors in a closed loop cannot be altered." ∧
    updateCorridor sqLevel.level "C" "D" "C" "D" 2 "west" =
      PyResult.exn sqLevel.level
        "Could not update corridor: corridors in a closed loop cannot be altered." ∧
    updateCorridor sqLevel.level "D" "A" "D" "A" 2 "north" =
      PyResult.exn sqLevel.level
        "Could not update corridor: corridors in a closed loop cannot be altered." := by
  refine ⟨fun corridor conns => checkIfInLoop_iff_loopGoal corridor conns,
    ?_, ?_, ?_, ?_, ?_⟩ <;> decide

/-- Claim C4 is refuted as stated: after the committed `add_corridor`
closing the square, the level is non-empty, `current_room` is the corridor
name "D-A", and no room — in particular "A" — is reachable from
`current_room` over the connection graph. -/
theorem c4_counterexample :
    sqLevel.isOk = true ∧
    "A" ∈ dictKeys sqLevel.level.rooms ∧
    sqLevel.level.currentRoom = "D-A" ∧
    ¬ Reaches sqLevel.level.connections sqLevel.level.currentRoom "A" := by
  refine ⟨by decide, by decide, by decide, ?_⟩
  rw [← connectedRooms_iff]
  decide

/-- Witness for C4: the pruner characterization applied to the concrete
degree-four level anchored at "Z". -/
theorem c4_witness :
    ("P", mkRoomAt "P" (3, -4)) ∈ (degLevel.removeHangingRooms (some "Z")).rooms ↔
      ("P", mkRoomAt "P" (3, -4)) ∈ degLevel.rooms ∧
        Reaches degLevel.connections "Z" "P" :=
  (c4_pruner_deletes_unreachable degLevel "Z" (by decide) (by decide)
    (by decide) (by decide)).1 _

/-- Claim C1 is a code bug: the sequence of seven committed operations ends
with corridors "A-B" and "E-F" sharing the coordinate (3, 0) — the final
`update_corridor` validates room/room and room/corridor intersections but
never corridor/corridor ones. -/
theorem c1_corridor_overlap_bug :
    lvlA.isOk = true ∧ lvlAB.isOk = true ∧ seqC1a.isOk = true ∧
    seqC1b.isOk = true ∧ seqC1c.isOk = true ∧ seqC1d.isOk = true ∧
    seqC1e.isOk = true ∧
    (dictGet? seqC1e.level.corridors "A-B").map
      (fun c => c.coords.contains ((3 : Int), (0 : Int))) = some true ∧
    (dictGet? seqC1e.level.corridors "E-F").map
      (fun c => c.coords.contains ((3 : Int), (0 : Int))) = some true := by
  decide

/-- Claim C3 is a code bug: removing room "B" (the `room_to` endpoint of
corridor "A-B") deletes the room and the corridor but leaves the stale
entry `connections["A"][east] = "B"`, so the connection table is no longer
consistent with the (empty) corridor set. -/
theorem c3_stale_connection_bug :
    lvlStale.isOk = true ∧
    (dictGet? lvlStale.level.connections "A").map (fun m => m.get .east) =
      some "B" ∧
    dictContains lvlStale.level.rooms "B" = false ∧
    lvlStale.level.corridors = [] ∧
    dictContains lvlStale.level.connections "B" = false := by
  decide

/-- Claim C2 is a code bug: on the (reachable) stale level, renaming room
"A" to "A2" raises `KeyError` after the room has already been renamed in
`rooms` and the connection-table key moved, so the failed call leaves the
level different from its pre-call state. -/
theorem c2_atomicity_bug :
    lvlStale.isOk = true ∧
    staleRename.isOk = false ∧
    staleRename.level ≠ lvlStale.level ∧
    dictGet? staleRename.level.rooms "A" = none ∧
    (dictGet? staleRename.level.rooms "A2").isSome = true ∧
    (dictGet? lvlStale.level.rooms "A").isSome = true := by
  decide

lemma dictGet?_mem {α : Type} (d : Dict α) (k : String) (v : α)
    (h : dictGet? d k = some v) : (k, v) ∈ d := by
  unfold dictGet? at h
  rcases hf : d.find? (fun q => q.1 == k) with _ | q
  · rw [hf] at h; cases h
  · rw [hf] at h
    have hq := @List.find?_some _ (fun r : String × α => r.1 == k) q d hf
    have hmem := List.mem_of_find?_eq_some hf
    have hkey : q.1 = k := eq_of_beq hq
    have hval : q.2 = v := by injection h
    have : q = (k, v) := by
      obtain ⟨q1, q2⟩ := q
      simp only at hkey hval
      rw [hkey, hval]
    rw [← this]
    exact hmem

/-- Claim C10: `get_encounter` returns the room's encounter for *every*
integer cell index when the name is a rooms key; when the name is only a
corridor, success is exactly `1 ≤ cell_index ≤ length` (given the
construction invariant that the encounter list matches the length); and a
name that is neither raises the not-in-level error. -/
theorem c10_get_encounter_spec (level : Level) (roomName : String)
    (cellIndex : Int)
    (hwf : ∀ p ∈ level.corridors, (p.2.encounters.length : Int) = p.2.length) :
    (∀ room, dictGet? level.rooms roomName = some room →
      getEncounter level roomName cellIndex = .ok room.encounter) ∧
    (dictGet? level.rooms roomName = none →
      ∀ c, dictGet? level.corridors roomName = some c →
        ((∃ e, getEncounter level roomName cellIndex = Except.ok e) ↔
          0 < cellIndex ∧ cellIndex ≤ c.length)) ∧
    (dictGet? level.rooms roomName = none →
      dictGet? level.corridors roomName = none →
      getEncounter level roomName cellIndex =
        .error (roomName ++ " is not in the level.")) := by
  refine ⟨?_, ?_, ?_⟩
  · intro room hroom
    unfold getEncounter
    rw [hroom]
  · intro hnone c hc
    unfold getEncounter
    rw [hnone, hc]
    dsimp only
    constructor
    · rintro ⟨e, he⟩
      by_cases hb : 0 < cellIndex ∧ cellIndex ≤ c.length
      · exact hb
      · rw [if_neg hb] at he
        cases he
    · intro hb
      rw [if_pos hb]
      have hlen : (c.encounters.length : Int) = c.length := by
        have := hwf (roomName, c) (dictGet?_mem _ _ _ hc)
        exact this
      have hidx : (cellIndex - 1).toNat < c.encounters.length := by
        omega
      rcases hget : c.encounters.get? (cellIndex - 1).toNat with _ | e
      · rw [List.get?_eq_none] at hget
        omega
      · exact ⟨e, rfl⟩
  · intro h1 h2
    unfold getEncounter
    rw [h1, h2]

/-- Witness for C10: in the concrete level, the room "Z" returns its
encounter even for the cell index -5. -/
theorem c10_witness :
    getEncounter degLevel "Z" (-5) = Except.ok (mkRoomAt "Z" (0, 0)).encounter :=
  (c10_get_encounter_spec degLevel "Z" (-5) (by decide)).1 (mkRoomAt "Z" (0, 0))
    (by decide)

lemma getNewCoords_step_back (c : Coord) (d : Direction) (n : Int) :
    getNewCoords (getNewCoords c d (n + 1)) (oppositeDirection d) 1 =
      getNewCoords c d n := by
  cases d
  all_goals
    unfold getNewCoords oppositeDirection
    dsimp only
    apply Prod.ext
    all_goals
      dsimp only
      try ring

lemma connGet_eq_of_get (conns : Dict DirMap) (z : String) (m : DirMap)
    (h : dictGet? conns z = some m) : connGet conns z = m := by
  unfold connGet
  rw [h]
  rfl

/-- Claim C7 (amended): for a room `z` whose four direction slots are all
occupied (and, as geometric consistency of four emanating corridors dictates,
whose four adjacent grid cells are occupied), every attempt to attach a fifth
connection fails and returns the level unchanged: `add_room` connecting from
`z` and `add_corridor` with `z` as `room_from` fail at the occupied-slot
conflict check (or an earlier input check); `add_corridor` with `z` as
`room_to` also always fails with the level unchanged, but through the
geometric intersection check (or an earlier input check) — the
`len(...) // 2 < 4` degree guard of the source can never fire, so no failure
is ever reported as a too-many-connections conflict for `room_to`. -/
theorem c7_degree_bound (level : Level) (z : String) (zroom : Room)
    (hz : z ≠ "")
    (hzroom : dictGet? level.rooms z = some zroom)
    (hslots : ∀ d, (connGet level.connections z).get d ≠ "")
    (hocc : ∀ d, (checkIntersectionCoords
      (getNewCoords zroom.coords (oppositeDirection d) 1) level).1 = true) :
    (∀ name description direction,
      ∃ msg, addRoom level name description z direction = .exn level msg) ∧
    (∀ other len direction,
      ∃ msg, addCorridor level z other len direction = .exn level msg) ∧
    (∀ y len direction,
      ∃ msg, addCorridor level y z len direction = .exn level msg) := by
  refine ⟨?_, ?_, ?_⟩
  · intro name description direction
    unfold addRoom
    by_cases h1 : name = ""
    · rw [if_pos h1]; exact ⟨_, rfl⟩
    rw [if_neg h1]
    by_cases h2 : description = ""
    · rw [if_pos h2]; exact ⟨_, rfl⟩
    rw [if_neg h2]
    by_cases h3 : dictContains level.rooms name = true
    · rw [if_pos h3]; exact ⟨_, rfl⟩
    rw [if_neg h3]
    by_cases h4 : level.currentRoom = "" ∧ z ≠ ""
    · rw [if_pos h4]; exact ⟨_, rfl⟩
    rw [if_neg h4]
    by_cases h5 : level.currentRoom ≠ "" ∧ z = ""
    · rw [if_pos h5]; exact ⟨_, rfl⟩
    rw [if_neg h5]
    by_cases h6 : level.currentRoom ≠ "" ∧ direction = ""
    · rw [if_pos h6]; exact ⟨_, rfl⟩
    rw [if_neg h6]
    rw [if_pos hz]
    by_cases h7 : dictContains level.corridors z = true
    · rw [if_pos h7]; exact ⟨_, rfl⟩
    rw [if_neg h7]
    rcases hfound : dictGet? level.rooms z with _ | fromRoom
    · exact ⟨_, rfl⟩
    dsimp only
    rcases hdir : parseDirection direction with _ | dirEnum
    · exact ⟨_, rfl⟩
    dsimp only
    rcases hconn : dictGet? level.connections z with _ | fromConn
    · exact ⟨_, rfl⟩
    dsimp only
    have hc : connGet level.connections z = fromConn :=
      connGet_eq_of_get level.connections z fromConn hconn
    rw [if_pos (show fromConn.get dirEnum ≠ "" from hc ▸ hslots dirEnum)]
    exact ⟨_, rfl⟩
  · intro other len direction
    unfold addCorridor
    rw [if_neg hz]
    by_cases h2 : other = ""
    · rw [if_pos h2]; exact ⟨_, rfl⟩
    rw [if_neg h2]
    by_cases h3 : z = other
    · rw [if_pos h3]; exact ⟨_, rfl⟩
    rw [if_neg h3]
    by_cases h4 : dictContains level.rooms z = true
    · rw [if_neg (not_not_intro h4)]
      by_cases h5 : dictContains level.rooms other = true
      · rw [if_neg (not_not_intro h5)]
        by_cases h6 : (findCorridorPair level z other).isSome = true
        · rw [if_pos h6]; exact ⟨_, rfl⟩
        rw [if_neg h6]
        by_cases h7 : corridorMinLength ≤ len ∧ len ≤ corridorMaxLength
        · rw [if_neg (not_not_intro h7)]
          rcases hdir : parseDirection direction with _ | dirEnum
          · exact ⟨_, rfl⟩
          dsimp only
          rcases hconn : dictGet? level.connections z with _ | fromConn
          · exact ⟨_, rfl⟩
          dsimp only
          have hc : connGet level.connections z = fromConn :=
            connGet_eq_of_get level.connections z fromConn hconn
          rw [if_pos (show fromConn.get dirEnum ≠ "" from hc ▸ hslots dirEnum)]
          exact ⟨_, rfl⟩
        · rw [if_pos h7]; exact ⟨_, rfl⟩
      · rw [if_pos h5]; exact ⟨_, rfl⟩
    · rw [if_pos h4]; exact ⟨_, rfl⟩
  · intro y len direction
    unfold addCorridor
    by_cases h1 : y = ""
    · rw [if_pos h1]; exact ⟨_, rfl⟩
    rw [if_neg h1]
    rw [if_neg hz]
    by_cases h3 : y = z
    · rw [if_pos h3]; exact ⟨_, rfl⟩
    rw [if_neg h3]
    by_cases h4 : dictContains level.rooms y = true
    · rw [if_neg (not_not_intro h4)]
      by_cases h5 : dictContains level.rooms z = true
      · rw [if_neg (not_not_intro h5)]
        by_cases h6 : (findCorridorPair level y z).isSome = true
        · rw [if_pos h6]; exact ⟨_, rfl⟩
        rw [if_neg h6]
        by_cases h7 : corridorMinLength ≤ len ∧ len ≤ corridorMaxLength
        · rw [if_neg (not_not_intro h7)]
          rcases hdir : parseDirection direction with _ | dirEnum
          · exact ⟨_, rfl⟩
          dsimp only
          rcases hconn : dictGet? level.connections y with _ | fromConn
          · exact ⟨_, rfl⟩
          dsimp only
          by_cases h8 : fromConn.get dirEnum = ""
          · rw [if_neg (not_not_intro h8)]
            by_cases h9 : (level.getCorridorsByRoom y).length / 2 < 4
            · rw [if_neg (not_not_intro h9)]
              by_cases h10 : (level.getCorridorsByRoom z).length / 2 < 4
              · rw [if_neg (not_not_intro h10)]
                rcases hfy : dictGet? level.rooms y with _ | fromRoom
                · rw [hzroom]; exact ⟨_, rfl⟩
                rw [hzroom]
                dsimp only
                by_cases hfit : zroom.coords =
                    getNewCoords fromRoom.coords dirEnum (len + 1)
                · rw [if_neg (not_not_intro hfit)]
                  rcases hfind : (corridorCoordsFrom fromRoom.coords dirEnum len).find?
                      (fun c => (checkIntersectionCoords c level).1) with _ | cclash
                  · exfalso
                    have hlen2 : (2 : Int) ≤ len := h7.1
                    have hcell : getNewCoords fromRoom.coords dirEnum len ∈
                        corridorCoordsFrom fromRoom.coords dirEnum len := by
                      simp only [corridorCoordsFrom, List.mem_map]
                      refine ⟨len - 1, ?_, by congr 1; ring⟩
                      simp only [List.bind_eq_flatMap, List.mem_flatMap,
                        List.mem_range, List.mem_pure]
                      exact ⟨len.toNat - 1, by omega, by omega⟩
                    have hint := List.find?_eq_none.mp hfind _ hcell
                    apply hint
                    have harith : getNewCoords fromRoom.coords dirEnum len =
                        getNewCoords zroom.coords (oppositeDirection dirEnum) 1 := by
                      rw [hfit, getNewCoords_step_back]
                    rw [harith]
                    exact hocc dirEnum
                  · exact ⟨_, rfl⟩
                · rw [if_pos hfit]; exact ⟨_, rfl⟩
              · rw [if_pos h10]; exact ⟨_, rfl⟩
            · rw [if_pos h9]; exact ⟨_, rfl⟩
          · rw [if_pos h8]; exact ⟨_, rfl⟩
        · rw [if_pos h7]; exact ⟨_, rfl⟩
      · rw [if_pos h5]; exact ⟨_, rfl⟩
    · rw [if_pos h4]; exact ⟨_, rfl⟩

/-- Claim C7 counterexample: in `degLevel` the room `Z` has four corridor
endpoints (all four direction slots occupied), yet the `// 2 < 4` degree
guard still passes — `4 / 2 < 4` — so attaching a fifth corridor with `Z`
as `room_to` is rejected by the geometric intersection check (the corridor
would clash in the corridor `N`), not by the too-many-connections conflict
check the specification describes. -/
theorem c7_counterexample :
    (degLevel.getCorridorsByRoom "Z").length = 4 ∧
    ((degLevel.getCorridorsByRoom "Z").length / 2 < 4) ∧
    addCorridor degLevel "Y" "Z" 3 "south" =
      PyResult.exn degLevel
        "Could not add corridor between Y and Z to the level: it would clash in N." := by
  refine ⟨by decide, by decide, by decide⟩

/-- Witness for the C7 amended theorem at the concrete level `degLevel`,
whose room `Z` has all four direction slots occupied. -/
theorem c7_witness :
    ∃ msg, addCorridor degLevel "Y" "Z" 3 "south" = .exn degLevel msg :=
  (c7_degree_bound degLevel "Z" (mkRoomAt "Z" (0, 0)) (by decide) (by decide)
    (fun d => by cases d <;> decide) (fun d => by cases d <;> decide)).2.2 "Y" 3 "south"

lemma dictGet?_dictSet_self {α : Type} (d : Dict α) (k : String) (v : α) :
    dictGet? (dictSet d k v) k = some v := by
  induction d with
  | nil => simp [dictSet, dictGet?, List.find?]
  | cons a t ih =>
      obtain ⟨a1, a2⟩ := a
      by_cases h : a1 = k
      · subst h
        simp [dictSet, dictGet?, List.find?]
      · unfold dictSet
        rw [if_neg h]
        unfold dictGet? at ih ⊢
        rw [List.find?_cons_of_neg _ (by simpa using h)]
        exact ih

lemma dictGet?_dictSet_ne {α : Type} (d : Dict α) (k k' : String) (v : α)
    (h : k' ≠ k) : dictGet? (dictSet d k v) k' = dictGet? d k' := by
  induction d with
  | nil =>
      unfold dictSet dictGet?
      rw [List.find?_cons_of_neg _ (by simpa using fun hc => h hc.symm)]
  | cons a t ih =>
      obtain ⟨a1, a2⟩ := a
      by_cases ha : a1 = k
      · subst ha
        unfold dictSet
        rw [if_pos rfl]
        unfold dictGet?
        rw [List.find?_cons_of_neg _ (by simpa using fun hc => h hc.symm),
          List.find?_cons_of_neg _ (by simpa using fun hc => h hc.symm)]
      · unfold dictSet
        rw [if_neg ha]
        by_cases hk : a1 = k'
        · subst hk
          unfold dictGet?
          rw [List.find?_cons_of_pos _ (by simp), List.find?_cons_of_pos _ (by simp)]
        · unfold dictGet? at ih ⊢
          rw [List.find?_cons_of_neg _ (by simpa using hk),
            List.find?_cons_of_neg _ (by simpa using hk)]
          exact ih

lemma dictGet?_dictErase_ne {α : Type} (d : Dict α) (k k' : String)
    (h : k' ≠ k) : dictGet? (dictErase d k) k' = dictGet? d k' := by
  induction d with
  | nil => rfl
  | cons a t ih =>
      obtain ⟨a1, a2⟩ := a
      by_cases ha : a1 = k
      · subst ha
        unfold dictErase
        rw [if_pos rfl]
        unfold dictGet?
        rw [List.find?_cons_of_neg _ (by simpa using fun hc => h hc.symm)]
      · unfold dictErase
        rw [if_neg ha]
        by_cases hk : a1 = k'
        · subst hk
          unfold dictGet?
          rw [List.find?_cons_of_pos _ (by simp), List.find?_cons_of_pos _ (by simp)]
        · unfold dictGet? at ih ⊢
          rw [List.find?_cons_of_neg _ (by simpa using hk),
            List.find?_cons_of_neg _ (by simpa using hk)]
          exact ih

lemma dictContains_of_mem {α : Type} (d : Dict α) (p : String × α)
    (h : p ∈ d) : dictContains d p.1 = true := by
  unfold dictContains
  rw [List.any_eq_true]
  exact ⟨p, h, by simp⟩

lemma dictContains_of_get? {α : Type} (d : Dict α) (k : String) (v : α)
    (h : dictGet? d k = some v) : dictContains d k = true := by
  by_contra hc
  rw [dictGet?_eq_none_of_not_contains d k hc] at h
  cases h

lemma dictGet?_dictErase_self {α : Type} (d : Dict α) (k : String)
    (h : (dictKeys d).Nodup) : dictGet? (dictErase d k) k = none := by
  rw [dictErase_eq_filter k d h]
  apply dictGet?_eq_none_of_not_contains
  unfold dictContains
  intro hc
  rw [List.any_eq_true] at hc
  obtain ⟨p, hp, hpk⟩ := hc
  have := List.of_mem_filter hp
  rw [eq_of_beq hpk] at this
  simp at this

lemma dictErase_append_left {α : Type} (a b : Dict α) (k : String)
    (h : dictContains a k = true) :
    dictErase (a ++ b) k = dictErase a k ++ b := by
  induction a with
  | nil => simp [dictContains] at h
  | cons p t ih =>
      obtain ⟨p1, p2⟩ := p
      by_cases hp : p1 = k
      · subst hp
        rw [List.cons_append]
        show dictErase ((p1, p2) :: (t ++ b)) p1 = dictErase ((p1, p2) :: t) p1 ++ b
        simp [dictErase]
      · have ht : dictContains t k = true := by
          unfold dictContains at h ⊢
          rw [List.any_cons] at h
          rcases Bool.or_eq_true_iff.mp h with h1 | h2
          · exact absurd (eq_of_beq h1) hp
          · exact h2
        rw [List.cons_append]
        show dictErase ((p1, p2) :: (t ++ b)) k = dictErase ((p1, p2) :: t) k ++ b
        simp only [dictErase]
        rw [if_neg hp, if_neg hp, ih ht, List.cons_append]

lemma dictSet_append_of_not_contains {α : Type} (d : Dict α) (k : String)
    (v : α) (h : ¬ dictContains d k = true) : dictSet d k v = d ++ [(k, v)] := by
  induction d with
  | nil => rfl
  | cons p t ih =>
      obtain ⟨p1, p2⟩ := p
      have hp : p1 ≠ k := by
        intro hc
        apply h
        unfold dictContains
        rw [List.any_cons]
        simp [hc]
      have ht : ¬ dictContains t k = true := by
        intro hc
        apply h
        unfold dictContains at hc ⊢
        rw [List.any_cons, hc]
        simp
      unfold dictSet
      rw [if_neg hp, ih ht, List.cons_append]

lemma mem_dictErase_iff {α : Type} (d : Dict α) (k : String) (p : String × α)
    (h : (dictKeys d).Nodup) : p ∈ dictErase d k ↔ p ∈ d ∧ p.1 ≠ k := by
  rw [dictErase_eq_filter k d h, List.mem_filter]
  simp

lemma dictContains_append {α : Type} (a b : Dict α) (k : String) :
    dictContains (a ++ b) k = (dictContains a k || dictContains b k) := by
  unfold dictContains
  exact List.any_append

lemma setReciprocal_ok (name : String) :
    ∀ (items : List (Direction × String)) (conns : Dict DirMap),
    (∀ p ∈ items, p.2 ≠ "" → (dictGet? conns p.2).isSome = true) →
    items.Pairwise (fun p q => p.2 = "" ∨ q.2 = "" ∨ p.2 ≠ q.2) →
    ∃ conns2, setReciprocal name conns items = .ok conns2 ∧
      (∀ k, (∀ p ∈ items, p.2 = "" ∨ p.2 ≠ k) →
        dictGet? conns2 k = dictGet? conns k) ∧
      (∀ p ∈ items, p.2 ≠ "" →
        dictGet? conns2 p.2 =
          (dictGet? conns p.2).map (fun m => m.set (oppositeDirection p.1) name)) := by
  intro items
  induction items with
  | nil =>
      intro conns _ _
      exact ⟨conns, rfl, fun _ _ => rfl, fun p hp => absurd hp (List.not_mem_nil p)⟩
  | cons hd rest ih =>
      intro conns hpres hdist
      obtain ⟨d, other⟩ := hd
      by_cases hother : other = ""
      · have hstep : setReciprocal name conns ((d, other) :: rest) =
            setReciprocal name conns rest := by
          simp only [setReciprocal]
          rw [if_pos hother]
        obtain ⟨conns2, hok, hframe, hupd⟩ :=
          ih conns (fun p hp => hpres p (List.mem_cons_of_mem _ hp))
            (List.pairwise_cons.mp hdist).2
        refine ⟨conns2, hstep ▸ hok, ?_, ?_⟩
        · intro k hk
          exact hframe k (fun p hp => hk p (List.mem_cons_of_mem _ hp))
        · intro p hp hne
          rcases List.mem_cons.mp hp with rfl | hp'
          · exact absurd hother hne
          · exact hupd p hp' hne
      · have hsome : (dictGet? conns other).isSome = true :=
          hpres (d, other) (List.mem_cons_self _ _) hother
        rcases hm : dictGet? conns other with _ | m
        · rw [hm] at hsome; cases hsome
        have hstep : setReciprocal name conns ((d, other) :: rest) =
            setReciprocal name
              (dictSet conns other (m.set (oppositeDirection d) name)) rest := by
          simp only [setReciprocal]
          rw [if_neg hother, hm]
        set conns' := dictSet conns other (m.set (oppositeDirection d) name) with hconns'
        have hrestne : ∀ p ∈ rest, p.2 = "" ∨ p.2 ≠ other :=
          fun p hp => ((List.pairwise_cons.mp hdist).1 p hp).elim
            (fun h => absurd h hother)
            (fun h => h.elim Or.inl (fun h2 => Or.inr (fun hc => h2 hc.symm)))
        have hpres' : ∀ p ∈ rest, p.2 ≠ "" → (dictGet? conns' p.2).isSome = true := by
          intro p hp hne
          by_cases hpo : p.2 = other
          · rw [hconns', hpo, dictGet?_dictSet_self]
            rfl
          · rw [hconns', dictGet?_dictSet_ne _ _ _ _ hpo]
            exact hpres p (List.mem_cons_of_mem _ hp) hne
        obtain ⟨conns2, hok, hframe, hupd⟩ :=
          ih conns' hpres' (List.pairwise_cons.mp hdist).2
        refine ⟨conns2, hstep ▸ hok, ?_, ?_⟩
        · intro k hk
          have hko : other ≠ k := by
            rcases hk (d, other) (List.mem_cons_self _ _) with h | h
            · exact absurd h hother
            · exact h
          rw [hframe k (fun p hp => hk p (List.mem_cons_of_mem _ hp)),
            hconns', dictGet?_dictSet_ne _ _ _ _ (fun hc => hko hc.symm)]
        · intro p hp hne
          rcases List.mem_cons.mp hp with rfl | hp'
          · rw [hframe other hrestne, hconns', dictGet?_dictSet_self, hm]
            rfl
          · have hpo : p.2 = "" ∨ p.2 ≠ other := hrestne p hp'
            rcases hpo with h | h
            · exact absurd h hne
            · rw [hupd p hp' hne, hconns', dictGet?_dictSet_ne _ _ _ _ h]

lemma foldl_congr_mem {α β : Type} (f g : β → α → β) (l : List α) (b : β)
    (h : ∀ a ∈ l, ∀ x, f x a = g x a) : l.foldl f b = l.foldl g b := by
  induction l generalizing b with
  | nil => rfl
  | cons a t ih =>
      rw [List.foldl_cons, List.foldl_cons, h a (List.mem_cons_self _ _) b]
      exact ih _ (fun x hx y => h x (List.mem_cons_of_mem _ hx) y)

lemma updateCorrStep_eq_renameIncident (refName name : String)
    (descChanged : Bool) (c : Corridor) (d : Dict Corridor)
    (hne : c.roomFrom ≠ c.roomTo)
    (htouch : c.roomFrom = refName ∨ c.roomTo = refName) :
    updateCorrStep refName name descChanged d c =
      dictSet (dictErase d c.name)
        (renameIncident refName name descChanged c).name
        (renameIncident refName name descChanged c) := by
  by_cases hfrom : c.roomFrom = refName
  · simp [updateCorrStep, renameIncident, hfrom,
      show ¬ c.roomTo = refName from fun hc => hne (hfrom.trans hc.symm)]
  · rcases htouch with h | hto
    · exact absurd h hfrom
    · simp [updateCorrStep, renameIncident, hfrom, hto]

lemma renameFold_char (ren : Corridor → Corridor) :
    ∀ (cs : List Corridor) (base extra : Dict Corridor),
    (∀ c ∈ cs, (c.name, c) ∈ base) →
    (dictKeys base).Nodup →
    (∀ c ∈ cs, ¬ dictContains extra c.name = true) →
    (∀ c ∈ cs, ∀ p ∈ base, p.1 ≠ c.name → (ren c).name ≠ p.1) →
    (∀ c ∈ cs, ¬ dictContains extra (ren c).name = true) →
    cs.Pairwise (fun a b => a.name ≠ b.name ∧ (ren a).name ≠ b.name ∧
      (ren a).name ≠ (ren b).name) →
    cs.foldl (fun d c => dictSet (dictErase d c.name) (ren c).name (ren c))
        (base ++ extra) =
      base.filter (fun p => !((cs.map Corridor.name).contains p.1)) ++ extra
        ++ cs.map (fun c => ((ren c).name, ren c)) := by
  intro cs
  induction cs with
  | nil =>
      intro base extra _ _ _ _ _ _
      simp
  | cons c rest ih =>
      intro base extra h1 h2 h3 h4 h5 h6
      rw [List.foldl_cons]
      have hcmem : (c.name, c) ∈ base := h1 c (List.mem_cons_self _ _)
      have hcont : dictContains base c.name = true :=
        dictContains_of_mem base (c.name, c) hcmem
      have herase : dictErase (base ++ extra) c.name =
          dictErase base c.name ++ extra :=
        dictErase_append_left base extra c.name hcont
      have hfreshkey : ¬ dictContains (dictErase base c.name ++ extra)
          (ren c).name = true := by
        rw [dictContains_append]
        intro hc
        rcases Bool.or_eq_true_iff.mp hc with hc1 | hc2
        · unfold dictContains at hc1
          rw [List.any_eq_true] at hc1
          obtain ⟨p, hp, hpk⟩ := hc1
          have hpb := (mem_dictErase_iff base c.name p h2).mp hp
          exact h4 c (List.mem_cons_self _ _) p hpb.1 hpb.2 (eq_of_beq hpk).symm
        · exact h5 c (List.mem_cons_self _ _) hc2
      have hset : dictSet (dictErase (base ++ extra) c.name) (ren c).name (ren c) =
          dictErase base c.name ++ (extra ++ [((ren c).name, ren c)]) := by
        rw [herase, dictSet_append_of_not_contains _ _ _ hfreshkey,
          List.append_assoc]
      rw [hset]
      have hpair := List.pairwise_cons.mp h6
      have h2' : (dictKeys (dictErase base c.name)).Nodup := by
        rw [dictErase_eq_filter c.name base h2]
        exact dictKeys_filter_nodup base _ h2
      have hrest := ih (dictErase base c.name) (extra ++ [((ren c).name, ren c)])
        (fun c2 hc2 => (mem_dictErase_iff base c.name (c2.name, c2) h2).mpr
          ⟨h1 c2 (List.mem_cons_of_mem _ hc2), (hpair.1 c2 hc2).1.symm⟩)
        h2'
        (fun c2 hc2 => by
          rw [dictContains_append]
          intro hc
          rcases Bool.or_eq_true_iff.mp hc with hc1 | hc2'
          · exact h3 c2 (List.mem_cons_of_mem _ hc2) hc1
          · unfold dictContains at hc2'
            rw [List.any_eq_true] at hc2'
            obtain ⟨p, hp, hpk⟩ := hc2'
            rcases List.mem_singleton.mp hp with rfl
            exact (hpair.1 c2 hc2).2.1 (eq_of_beq hpk))
        (fun c2 hc2 p hp hpk =>
          h4 c2 (List.mem_cons_of_mem _ hc2) p
            ((mem_dictErase_iff base c.name p h2).mp hp).1 hpk)
        (fun c2 hc2 => by
          rw [dictContains_append]
          intro hc
          rcases Bool.or_eq_true_iff.mp hc with hc1 | hc2'
          · exact h5 c2 (List.mem_cons_of_mem _ hc2) hc1
          · unfold dictContains at hc2'
            rw [List.any_eq_true] at hc2'
            obtain ⟨p, hp, hpk⟩ := hc2'
            rcases List.mem_singleton.mp hp with rfl
            exact (hpair.1 c2 hc2).2.2 (eq_of_beq hpk))
        hpair.2
      rw [hrest]
      rw [dictErase_eq_filter c.name base h2, List.filter_filter]
      have hfc : base.filter
            (fun p => (!((rest.map Corridor.name).contains p.1) && (p.1 != c.name))) =
          base.filter
            (fun p => !(((c :: rest).map Corridor.name).contains p.1)) := by
        apply List.filter_congr
        intro p _
        rw [List.map_cons, List.contains_cons]
        by_cases hp1 : p.1 = c.name
        · simp [hp1]
        · have : (p.1 == c.name) = false := beq_eq_false_iff_ne.mpr hp1
          rw [this]
          have : (p.1 != c.name) = true := bne_iff_ne.mpr hp1
          rw [this]
          simp
      rw [hfc]
      simp [List.append_assoc]

/-- Claim C8: frame theorem for `update_room`.  Renaming `refName` to `name`
re-inserts the room under the new name with its coordinates kept; an
unchanged description keeps the room sprite, the encounter's entity sprites
and the sprite lists of incident corridors, while a changed description
resets all of them; every corridor incident to the room is re-keyed under
its rewritten name (endpoint and corridor name rewritten, direction, length,
coordinates and encounters kept) while non-incident corridors are untouched;
the connection-table key moves from `refName` to `name` with the map itself
kept, each listed neighbour's reciprocal slot is rewritten to `name`,
all other connection entries are untouched, and `current_room` follows the
rename. -/
theorem c8_update_room_frame (level : Level) (refName name description : String)
    (room0 : Room) (m0 : DirMap)
    (hrefne : refName ≠ "") (hname : name ≠ "") (hdesc : description ≠ "")
    (hroom : dictGet? level.rooms refName = some room0)
    (hfresh : name = refName ∨ dictContains level.rooms name = false)
    (hconn : dictGet? level.connections refName = some m0)
    (hconnnodup : (dictKeys level.connections).Nodup)
    (hknodup : (dictKeys level.corridors).Nodup)
    (hkeys : ∀ p ∈ level.corridors, p.1 = p.2.name)
    (hnsl : ∀ p ∈ level.corridors, p.2.roomFrom ≠ p.2.roomTo)
    (hfreshc : ∀ c ∈ level.getCorridorsByRoom refName, ∀ p ∈ level.corridors,
      p.1 ≠ c.name →
      (renameIncident refName name (room0.description != description) c).name ≠ p.1)
    (hpairc : (level.getCorridorsByRoom refName).Pairwise (fun a b =>
      a.name ≠ b.name ∧
      (renameIncident refName name (room0.description != description) a).name ≠ b.name ∧
      (renameIncident refName name (room0.description != description) a).name ≠
        (renameIncident refName name (room0.description != description) b).name))
    (hnbr : ∀ p ∈ m0.itemsList, p.2 ≠ "" →
      p.2 ≠ refName ∧ p.2 ≠ name ∧ (dictGet? level.connections p.2).isSome = true)
    (hnbrdist : m0.itemsList.Pairwise (fun p q => p.2 = "" ∨ q.2 = "" ∨ p.2 ≠ q.2)) :
    ∃ conns2,
      updateRoom level refName name description =
        .ok { rooms := dictSet (dictErase level.rooms refName) name
                { name := name, description := description, coords := room0.coords,
                  encounter := if room0.description != description
                    then room0.encounter.resetSprites else room0.encounter,
                  sprite := if room0.description != description
                    then none else room0.sprite },
              corridors :=
                level.corridors.filter (fun p =>
                  !(((level.getCorridorsByRoom refName).map Corridor.name).contains
                    p.1))
                ++ (level.getCorridorsByRoom refName).map (fun c =>
                    ((renameIncident refName name
                        (room0.description != description) c).name,
                      renameIncident refName name
                        (room0.description != description) c)),
              connections := conns2,
              currentRoom := if level.currentRoom = refName then name
                else level.currentRoom }
          ("Updated " ++ refName ++ ".") ∧
      dictGet? conns2 name = some m0 ∧
      (∀ p ∈ m0.itemsList, p.2 ≠ "" →
        dictGet? conns2 p.2 = (dictGet? level.connections p.2).map
          (fun m => m.set (oppositeDirection p.1) name)) ∧
      (∀ k, k ≠ refName → k ≠ name → (∀ p ∈ m0.itemsList, p.2 = "" ∨ p.2 ≠ k) →
        dictGet? conns2 k = dictGet? level.connections k) ∧
      (name ≠ refName → dictGet? conns2 refName = none) ∧
      (∀ c, (renameIncident refName name (room0.description != description)
          c).coords = c.coords ∧
        (renameIncident refName name (room0.description != description)
          c).length = c.length ∧
        (renameIncident refName name (room0.description != description)
          c).encounters = c.encounters ∧
        (renameIncident refName name (room0.description != description)
          c).direction = c.direction) ∧
      (∀ c, c.roomFrom = refName →
        (renameIncident refName name (room0.description != description)
          c).roomFrom = name ∧
        (renameIncident refName name (room0.description != description)
          c).roomTo = c.roomTo ∧
        (renameIncident refName name (room0.description != description)
          c).name = makeCorridorName name c.roomTo ∧
        (renameIncident refName name (room0.description != description)
          c).sprites = (if room0.description != description
            then [] else c.sprites)) ∧
      (∀ c, c.roomFrom ≠ refName → c.roomTo = refName →
        (renameIncident refName name (room0.description != description)
          c).roomFrom = c.roomFrom ∧
        (renameIncident refName name (room0.description != description)
          c).roomTo = name ∧
        (renameIncident refName name (room0.description != description)
          c).name = makeCorridorName c.roomFrom name ∧
        (renameIncident refName name (room0.description != description)
          c).sprites = (if room0.description != description
            then [] else c.sprites)) := by
  have hc1 : ¬¬ dictContains level.rooms refName = true :=
    not_not_intro (dictContains_of_get? _ _ _ hroom)
  have h5 : ¬(name ≠ refName ∧ dictContains level.rooms name = true) := by
    rcases hfresh with heq | hfc
    · exact fun hcon => hcon.1 heq
    · intro hcon
      rw [hfc] at hcon
      exact Bool.false_ne_true hcon.2
  -- set up the connection rewrite
  have hpres : ∀ p ∈ m0.itemsList, p.2 ≠ "" →
      (dictGet? (dictSet (dictErase level.connections refName) name m0)
        p.2).isSome = true := by
    intro p hp hne
    obtain ⟨hnref, hnnam, hsome⟩ := hnbr p hp hne
    rw [dictGet?_dictSet_ne _ _ _ _ hnnam, dictGet?_dictErase_ne _ _ _ hnref]
    exact hsome
  obtain ⟨conns2, hsrok, hframe, hupd⟩ :=
    setReciprocal_ok name m0.itemsList
      (dictSet (dictErase level.connections refName) name m0) hpres hnbrdist
  -- characterise the corridor fold
  have hbody : ∀ c ∈ level.getCorridorsByRoom refName, ∀ d,
      updateCorrStep refName name (room0.description != description) d c =
        dictSet (dictErase d c.name)
          (renameIncident refName name (room0.description != description) c).name
          (renameIncident refName name (room0.description != description) c) := by
    intro c hc d
    unfold Level.getCorridorsByRoom at hc
    obtain ⟨p, hp, rfl⟩ := List.mem_map.mp hc
    have hpf := List.mem_filter.mp hp
    apply updateCorrStep_eq_renameIncident
    · exact hnsl p hpf.1
    · rcases Bool.or_eq_true_iff.mp hpf.2 with h | h
      · exact Or.inl (eq_of_beq h)
      · exact Or.inr (eq_of_beq h)
  have hmem : ∀ c ∈ level.getCorridorsByRoom refName,
      (c.name, c) ∈ level.corridors := by
    intro c hc
    unfold Level.getCorridorsByRoom at hc
    obtain ⟨p, hp, rfl⟩ := List.mem_map.mp hc
    have hpf := List.mem_filter.mp hp
    have hk := hkeys p hpf.1
    rw [← hk]
    exact Prod.mk.eta ▸ hpf.1
  have hchar := renameFold_char
    (renameIncident refName name (room0.description != description))
    (level.getCorridorsByRoom refName) level.corridors [] hmem hknodup
    (fun c _ => by simp [dictContains])
    hfreshc
    (fun c _ => by simp [dictContains])
    hpairc
  simp only [List.append_nil] at hchar
  have hcorr_eq : (level.getCorridorsByRoom refName).foldl
      (updateCorrStep refName name (room0.description != description))
      level.corridors =
      level.corridors.filter (fun p =>
        !(((level.getCorridorsByRoom refName).map Corridor.name).contains p.1))
      ++ (level.getCorridorsByRoom refName).map (fun c =>
          ((renameIncident refName name
              (room0.description != description) c).name,
            renameIncident refName name
              (room0.description != description) c)) := by
    rw [foldl_congr_mem _ _ _ _ hbody]
    exact hchar
  refine ⟨conns2, ?_, ?_, ?_, ?_, ?_, ?_, ?_, ?_⟩
  · -- the ok result itself
    unfold updateRoom
    rw [if_neg hc1, if_neg hrefne, if_neg hname, if_neg hdesc, if_neg h5]
    rw [hroom]
    dsimp only
    rw [hconn]
    dsimp only
    rw [hsrok]
    dsimp only
    rw [hcorr_eq]
    by_cases hb : (room0.description != description) = true
    · simp [hb]
    · simp [hb]
  · -- the moved connection key holds the old map
    have hothers : ∀ p ∈ m0.itemsList, p.2 = "" ∨ p.2 ≠ name := by
      intro p hp
      by_cases hpe : p.2 = ""
      · exact Or.inl hpe
      · exact Or.inr (hnbr p hp hpe).2.1
    rw [hframe name hothers, dictGet?_dictSet_self]
  · -- each neighbour's reciprocal slot is rewritten
    intro p hp hne
    obtain ⟨hnref, hnnam, _⟩ := hnbr p hp hne
    rw [hupd p hp hne, dictGet?_dictSet_ne _ _ _ _ hnnam,
      dictGet?_dictErase_ne _ _ _ hnref]
  · -- all other connection entries are untouched
    intro k hkref hknam hkitems
    rw [hframe k hkitems, dictGet?_dictSet_ne _ _ _ _ hknam,
      dictGet?_dictErase_ne _ _ _ hkref]
  · -- the old key is gone after a real rename
    intro hnn
    have hothers : ∀ p ∈ m0.itemsList, p.2 = "" ∨ p.2 ≠ refName := by
      intro p hp
      by_cases hpe : p.2 = ""
      · exact Or.inl hpe
      · exact Or.inr (hnbr p hp hpe).1
    rw [hframe refName hothers,
      dictGet?_dictSet_ne _ _ _ _ (fun hc => hnn hc.symm),
      dictGet?_dictErase_self _ _ hconnnodup]
  · -- geometry of a rewritten corridor is preserved
    intro c
    unfold renameIncident
    by_cases h1 : c.roomFrom = refName
    · simp [h1]
    · by_cases h2 : c.roomTo = refName
      · simp [h1, h2]
      · simp [h1, h2]
  · -- rewrite of a corridor leaving the room
    intro c hfrom
    simp [renameIncident, hfrom]
  · -- rewrite of a corridor arriving at the room
    intro c hfrom hto
    simp [renameIncident, hfrom, hto]


/-- Witness for the C8 frame theorem: renaming room "A" of `c8Level` to "R"
with a changed description succeeds. -/
theorem c8_witness :
    (updateRoom c8Level "A" "R" "a renovated room").isOk = true := by
  obtain ⟨conns2, hok, -, -, -, -, -, -, -⟩ :=
    c8_update_room_frame c8Level "A" "R" "a renovated room"
      ⟨"A", "first room", (0, 0), Encounter.empty, some "a.png"⟩
      ⟨"", "", "B", "C"⟩
      (by decide) (by decide) (by decide) (by decide) (by decide) (by decide)
      (by decide) (by decide) (by decide) (by decide) (by decide) (by decide)
      (by decide) (by decide)
  rw [hok]
  rfl
